import Mathlib

/-!
Verification of the reglang2msl compiler core against its specification.

The Python sources are shallowly embedded:
* utils.string2int and the KnowledgeBaseInterpreter of
  knowledge_base_translator.py over a value domain mirroring the dynamic
  Python values (int / str / list of int-or-str);
* the RuleTransitionBuilder of rule_translator.py over a rose tree
  mirroring lark Tree/Token values;
* MslTypeInference of type_inference.py and RuleSatChecker of se.py
  as fuel-indexed visitors over the same rose trees.

Python exceptions are modelled with Except; the distinct exception classes
(InterpretationError, ValueError, TypeError, IndexError, ZeroDivisionError,
AssertionError) are separate constructors because some claims distinguish
them.  Host-runtime float behaviour (the result of int(eval("a / b"))) is
not modelled: the division path is an abstract parameter, all other
arithmetic is exact.
-/

namespace Reglang2Msl

/-- Python exception kinds that can escape the interpreter. -/
inductive Err where
  | interp (msg : String)
  | valueError
  | typeError
  | indexError
  | zeroDivisionError
  | assertionError
  deriving Repr, DecidableEq

instance {ε α : Type} [DecidableEq ε] [DecidableEq α] : DecidableEq (Except ε α)
  | .ok a, .ok b =>
      if h : a = b then .isTrue (by simp [h]) else .isFalse (by intro hc; cases hc; exact h rfl)
  | .error a, .error b =>
      if h : a = b then .isTrue (by simp [h]) else .isFalse (by intro hc; cases hc; exact h rfl)
  | .ok _, .error _ => .isFalse (by intro hc; cases hc)
  | .error _, .ok _ => .isFalse (by intro hc; cases hc)

/-- Start codepoints of the Unicode decimal-digit (general category Nd) runs:
each run is the ten consecutive codepoints start..start+9 carrying decimal
values 0..9 (Unicode 14.0, the table shipped with CPython 3.11, generated
from unicodedata.decimal).  These are exactly the characters the Python
int() parser accepts as digits. -/
def pyDecimalStarts : List Nat := [
  48, 1632, 1776, 1984, 2406, 2534, 2662, 2790, 2918, 3046,
  3174, 3302, 3430, 3558, 3664, 3792, 3872, 4160, 4240, 6112,
  6160, 6470, 6608, 6784, 6800, 6992, 7088, 7232, 7248, 42528,
  43216, 43264, 43472, 43504, 43600, 44016, 65296, 66720, 68912, 69734,
  69872, 69942, 70096, 70384, 70736, 70864, 71248, 71360, 71472, 71904,
  72016, 72784, 73040, 73120, 92768, 92864, 93008, 120782, 120792, 120802,
  120812, 120822, 123200, 123632, 125264, 130032]

/-- Codepoint ranges of the characters with Unicode Numeric_Type=Digit that
are not decimal digits (superscript and subscript digits, circled digits,
Ethiopic digits, ...; Unicode 14.0, generated from unicodedata.digit).
str.isdigit accepts them, but int() raises ValueError on them. -/
def pyDigitOnlyRanges : List (Nat × Nat) := [
  (178, 179), (185, 185), (4969, 4977), (6618, 6618), (8304, 8304), (8308, 8313),
  (8320, 8329), (9312, 9320), (9332, 9340), (9352, 9360), (9450, 9450), (9461, 9469),
  (9471, 9471), (10102, 10110), (10112, 10120), (10122, 10130), (68160, 68163), (69216, 69224),
  (69714, 69722), (127232, 127242)]

/-- The decimal value of a character as used by the Python int() parser:
some v for the Unicode Nd digits, none for every other character. -/
def pyDecimalVal (c : Char) : Option Nat :=
  (pyDecimalStarts.find? (fun s => s ≤ c.toNat && c.toNat ≤ s + 9)).map
    (fun s => c.toNat - s)

/-- Model of the per-character Python str.isdigit test: true exactly on the
characters with Unicode Numeric_Type Decimal or Digit. -/
def pyIsDigitChar (c : Char) : Bool :=
  (pyDecimalVal c).isSome
    || pyDigitOnlyRanges.any (fun p => p.1 ≤ c.toNat && c.toNat ≤ p.2)

/-- Model of the Python str.isdigit test on a whole string: non-empty and
every character has the Unicode digit property. -/
def pyIsDigitChars (cs : List Char) : Bool :=
  !cs.isEmpty && cs.all pyIsDigitChar

/-- Every character of the string is a decimal (Nd) digit, i.e. Python
int() parses the string without raising (given it passed str.isdigit). -/
def allDecimal (cs : List Char) : Bool :=
  cs.all (fun c => (pyDecimalVal c).isSome)

/-- Membership in Python string.hexdigits. -/
def isHexChar (c : Char) : Bool :=
  c.isDigit || (('a' ≤ c) && (c ≤ 'f')) || (('A' ≤ c) && (c ≤ 'F'))

/-- Numeric value of one hexadecimal digit. -/
def hexDigitVal (c : Char) : Nat :=
  if c.isDigit then c.toNat - 48
  else if ('a' ≤ c) && (c ≤ 'f') then c.toNat - 87
  else c.toNat - 55

/-- Value of a decimal digit string, as computed by Python int(s): base-10
positional composition of the per-character decimal values. -/
def decVal (cs : List Char) : Nat :=
  cs.foldl (fun acc c => 10 * acc + ((pyDecimalVal c).getD 0)) 0

/-- Value of a hexadecimal digit string, as computed by Python int(s, 16). -/
def hexValChars (cs : List Char) : Nat :=
  cs.foldl (fun acc c => 16 * acc + hexDigitVal c) 0

/-- Embedding of utils.string2int.  A result of .ok none models the Python
return value None; .error .valueError models the uncaught ValueError raised
either by int(val[2:], base=16) when the digit run after the 0x prefix is
empty, or by int(val) when the string passes str.isdigit but contains a
digit character with no decimal value (e.g. a superscript digit). -/
def string2int (val : String) : Except Err (Option Int) :=
  match val.data with
  | '0' :: 'x' :: rest =>
      if rest.all isHexChar then
        if rest.isEmpty then .error .valueError
        else .ok (some (hexValChars rest))
      else if pyIsDigitChars val.data then
        if allDecimal val.data then .ok (some (decVal val.data))
        else .error .valueError
      else .ok none
  | cs =>
      if pyIsDigitChars cs then
        if allDecimal cs then .ok (some (decVal cs))
        else .error .valueError
      else .ok none

/-- Model of the Python builtin int(-) on a string: optional sign followed by
a non-empty run of decimal (Nd) digits; anything else raises ValueError
(none).  Whitespace padding and underscore grouping, which no lark token
value reaching int(-) contains, are not modelled. -/
def pyInt (s : String) : Option Int :=
  match s.data with
  | '-' :: cs =>
      if !cs.isEmpty && allDecimal cs then some (-(decVal cs : Int)) else none
  | '+' :: cs =>
      if !cs.isEmpty && allDecimal cs then some ((decVal cs : Int)) else none
  | cs =>
      if !cs.isEmpty && allDecimal cs then some ((decVal cs : Int)) else none

/-- Model of Python str.lower restricted to ASCII case mapping. -/
def pyLower (s : String) : String :=
  ⟨s.data.map Char.toLower⟩

/-- Model of the Python slice s[1:-1] used to strip surrounding quotes. -/
def stripEnds (s : String) : String :=
  ⟨(s.data.drop 1).dropLast⟩

namespace KB

/-- A Python value that can live inside a knowledge array. -/
inductive PyVal where
  | i (n : Int)
  | s (st : String)
  deriving Repr, DecidableEq

/-- A knowledge value: int, str, or a list of array elements
(KnowledgeType = Union of int, str, List of int, List of str; the list case is
kept heterogeneous exactly as a Python list is, homogeneity being an
invariant rather than a type). -/
inductive KValue where
  | i (n : Int)
  | s (st : String)
  | arr (l : List PyVal)
  deriving Repr, DecidableEq

/-- Python str(-) applied to an array element. -/
def pyValStr : PyVal → String
  | .i n => toString n
  | .s st => st

/-- True when the element is an int (isinstance(v, int)). -/
def PyVal.isInt : PyVal → Bool
  | .i _ => true
  | .s _ => false

/-- Conversion of an array element back to a knowledge value (reading an
element out of a stored array). -/
def kvOfPy : PyVal → KValue
  | .i n => .i n
  | .s st => .s st

/-- A knowledge base: itemName to value, an insertion-ordered Python dict. -/
abbrev KBType := List (String × KValue)

/-- Insertion-ordered dict update: replace in place, or append a new key. -/
def dictUpdate {α : Type} (m : List (String × α)) (k : String) (v : α) :
    List (String × α) :=
  match m with
  | [] => [(k, v)]
  | (k0, v0) :: rest =>
      if k0 = k then (k, v) :: rest else (k0, v0) :: dictUpdate rest k v

/-- Dict lookup by key. -/
def dictGet {α : Type} (m : List (String × α)) (k : String) : Option α :=
  match m with
  | [] => none
  | (k0, v0) :: rest => if k0 = k then some v0 else dictGet rest k

/-- The two alteration operators of a knowledge_alt entry. -/
inductive AltFunc where
  | add
  | del
  deriving Repr, DecidableEq

/-- The element-wise add/del loop of _update_knowledge_base: for add, append
each value not already present; for del, remove (list.remove, i.e. the first
occurrence of) each value that is present. -/
def applyAlt (f : AltFunc) (arr : List PyVal) (vals : List PyVal) : List PyVal :=
  vals.foldl
    (fun acc v =>
      match f with
      | .add => if v ∈ acc then acc else acc ++ [v]
      | .del => if v ∈ acc then acc.erase v else acc)
    arr

/-- Embedding of KnowledgeBaseInterpreter._update_knowledge_base.  func none
is a knowledge_init; func some f is a knowledge_alt.  In the element-kind
coercion branch the Python code rebinds altered_array to a fresh list
(altered_array = list(map(str, altered_array))), so the add/del loop mutates
the copy and kb_dict keeps the original array: the model returns kb
unchanged there. -/
def updateKnowledgeBase (kb : KBType) (name : String) (value : KValue)
    (func : Option AltFunc) : Except Err KBType :=
  match func with
  | none => .ok (dictUpdate kb name value)
  | some f =>
      match dictGet kb name with
      | none => .error (.interp "knowledge is not defined")
      | some (.i _) => .error (.interp "adding and removing elements only support array objects")
      | some (.s _) => .error (.interp "adding and removing elements only support array objects")
      | some (.arr A) =>
          let V : List PyVal :=
            match value with
            | .arr l => l
            | .i n => [.i n]
            | .s st => [.s st]
          match V with
          | [] => .error .indexError
          | v0 :: _ =>
              let valueIsInt := v0.isInt
              let arrayIsInt :=
                match A with
                | [] => valueIsInt
                | a0 :: _ => a0.isInt
              if valueIsInt ≠ arrayIsInt then
                .ok kb
              else
                .ok (dictUpdate kb name (.arr (applyAlt f A V)))

/-- A literal token inside an RL array expression. -/
inductive RLTok where
  | num (v : String)
  | str (v : String)
  deriving Repr, DecidableEq

/-- The addition-level operators accepted by the term rule. -/
inductive AddOp where
  | plus
  | minus
  deriving Repr, DecidableEq

/-- The multiplication-level operators accepted by the factor rule. -/
inductive MulOp where
  | mult
  | div
  | mod
  deriving Repr, DecidableEq

/-- RL expression shapes inspected by the knowledge-base interpreter.  The
leaves count, txBasic, txState, contractBasic, contractState and varRef are
rejected outright, so their children are irrelevant and omitted. -/
inductive RLExpr where
  | term (l : RLExpr) (op : AddOp) (r : RLExpr)
  | factor (l : RLExpr) (op : MulOp) (r : RLExpr)
  | power (l : RLExpr) (r : RLExpr)
  | length (e : RLExpr)
  | count
  | array (toks : List RLTok)
  | number (tok : String)
  | string (tok : String)
  | txBasic
  | txState
  | contractBasic
  | contractState
  | varRef
  | knowledgeRef (kb : String) (k : String)
  | arrayItem (arr : RLExpr) (idx : RLExpr)
  deriving Repr, DecidableEq

/-- The operand conversion shared by term/factor/power: strings go through
string2int (a ValueError propagates), ints through int(-) unchanged, and a
list operand makes int(-) raise TypeError.  A none result means the later
explicit is-None check raises InterpretationError. -/
def toNumber : KValue → Except Err (Option Int)
  | .s st => string2int st
  | .i n => .ok (some n)
  | .arr _ => .error .typeError

/-- The collection of knowledge bases interpreted so far. -/
abbrev KBColl := List (String × KBType)

/-- Evaluation of an RL knowledge expression, embedding the expression rules
of KnowledgeBaseInterpreter.  coll is the kb_dict_collection used to resolve
knowledge_ref; pyDiv abstracts int(eval("a / b")), the host float division
(only the factor rule with a non-zero divisor consults it). -/
def evalExpr (pyDiv : Int → Int → Except Err Int) (coll : KBColl) :
    RLExpr → Except Err KValue
  | .term l op r => do
      let lt ← evalExpr pyDiv coll l
      let rt ← evalExpr pyDiv coll r
      let lv ← toNumber lt
      let rv ← toNumber rt
      match lv with
      | none => .error (.interp "cannot be converted to number")
      | some a =>
          match rv with
          | none => .error (.interp "cannot be converted to number")
          | some b =>
              match op with
              | .plus => .ok (.i (a + b))
              | .minus => .ok (.i (a - b))
  | .factor l op r => do
      let lt ← evalExpr pyDiv coll l
      let rt ← evalExpr pyDiv coll r
      let lv ← toNumber lt
      let rv ← toNumber rt
      match lv with
      | none => .error (.interp "cannot be converted to number")
      | some a =>
          match rv with
          | none => .error (.interp "cannot be converted to number")
          | some b =>
              match op with
              | .mult => .ok (.i (a * b))
              | .div =>
                  if b = 0 then .error .zeroDivisionError
                  else do
                    let q ← pyDiv a b
                    .ok (.i q)
              | .mod =>
                  if b = 0 then .error .zeroDivisionError
                  else .ok (.i (Int.fmod a b))
  | .power l r => do
      let lt ← evalExpr pyDiv coll l
      let rt ← evalExpr pyDiv coll r
      let lv ← toNumber lt
      let rv ← toNumber rt
      match lv with
      | none => .error (.interp "cannot be converted to number")
      | some a =>
          match rv with
          | none => .error (.interp "cannot be converted to number")
          | some b =>
              if 0 ≤ b then .ok (.i (a ^ b.toNat))
              else if a = 0 then .error .zeroDivisionError
              else if a = 1 then .ok (.i 1)
              else if a = -1 then .ok (.i (if b % 2 = 0 then 1 else -1))
              else .ok (.i 0)
  | .length e => do
      let v ← evalExpr pyDiv coll e
      match v with
      | .arr l => .ok (.i (l.length : Int))
      | _ => .error (.interp "length only applies to array")
  | .count => .error (.interp "count expressions are not expected in knowledge definition")
  | .array toks =>
      match toks with
      | [] => .error .assertionError
      | .num _ :: _ => do
          let elems ← toks.mapM (fun t =>
            match t with
            | .num v =>
                match pyInt v with
                | some n => .ok (PyVal.i n)
                | none => .error Err.valueError
            | .str v =>
                match pyInt v with
                | some n => .ok (PyVal.i n)
                | none => .error Err.valueError)
          .ok (.arr elems)
      | .str _ :: _ =>
          .ok (.arr (toks.map (fun t =>
            match t with
            | .num v => PyVal.s (stripEnds (pyLower v))
            | .str v => PyVal.s (stripEnds (pyLower v)))))
  | .number tok =>
      match pyInt tok with
      | some n => .ok (.i n)
      | none => .error .valueError
  | .string tok => .ok (.s (stripEnds (pyLower tok)))
  | .txBasic => .error (.interp "tx basic expressions are not expected in knowledge definition")
  | .txState => .error (.interp "tx state expressions are not expected in knowledge definition")
  | .contractBasic =>
      .error (.interp "contract basic expressions are not expected in knowledge definition")
  | .contractState =>
      .error (.interp "contract state expressions are not expected in knowledge definition")
  | .varRef =>
      .error (.interp "variable reference expressions are not expected in knowledge definition")
  | .knowledgeRef kb k =>
      match dictGet coll kb with
      | none => .error (.interp "knowledge base is not defined")
      | some kbDict =>
          match dictGet kbDict k with
          | none => .error (.interp "knowledge is not defined in knowledge base")
          | some v => .ok v
  | .arrayItem arr idx => do
      let av ← evalExpr pyDiv coll arr
      let iv ← evalExpr pyDiv coll idx
      let iconv ← toNumber iv
      match iconv with
      | none => .error (.interp "array indices must be numbers or strings convertible to numbers")
      | some i =>
          if i < 0 then .error (.interp "index out of bounds")
          else
            match av with
            | .i _ => .error .typeError
            | .s st =>
                if i ≥ (st.data.length : Int) then .error (.interp "index out of bounds")
                else
                  match st.data.get? i.toNat with
                  | some c => .ok (.s ⟨[c]⟩)
                  | none => .error (.interp "index out of bounds")
            | .arr l =>
                if i ≥ (l.length : Int) then .error (.interp "index out of bounds")
                else
                  match l.get? i.toNat with
                  | some e => .ok (kvOfPy e)
                  | none => .error (.interp "index out of bounds")

/-- One entry of a knowledgebase_block: a knowledge_init or a knowledge_alt. -/
inductive KEntry where
  | init (name : String) (expr : RLExpr)
  | alt (name : String) (func : AltFunc) (expr : RLExpr)
  deriving Repr, DecidableEq

/-- A knowledgebase_block: its name and its ordered entries. -/
structure KBBlock where
  name : String
  entries : List KEntry
  deriving Repr, DecidableEq

/-- Embedding of KnowledgeBaseInterpreter.knowledgebase_block: fold the
entries through _update_knowledge_base; the assert len(tree.children) > 1
makes a block without entries an AssertionError. -/
def interpBlock (pyDiv : Int → Int → Except Err Int) (coll : KBColl)
    (b : KBBlock) : Except Err (String × KBType) := do
  match b.entries with
  | [] => .error .assertionError
  | _ =>
      let kbDict ← b.entries.foldlM
        (fun kbDict e =>
          match e with
          | .init n ex => do
              let v ← evalExpr pyDiv coll ex
              updateKnowledgeBase kbDict n v none
          | .alt n f ex => do
              let v ← evalExpr pyDiv coll ex
              updateKnowledgeBase kbDict n v (some f))
        ([] : KBType)
      .ok (b.name, kbDict)

/-- A top-level child of the RL parse tree, as far as the KB interpreter is
concerned: a knowledgebase_block or anything else (filtered out). -/
inductive TopItem where
  | kb (b : KBBlock)
  | other
  deriving Repr, DecidableEq

/-- The per-instance state of KnowledgeBaseInterpreter: its
kb_dict_collection attribute. -/
structure KBInterp where
  kb_dict_collection : KBColl
  deriving Repr, DecidableEq

/-- Embedding of KnowledgeBaseInterpreter.start, with the instance state
threaded explicitly.  On success the collection is returned and _reset
clears the state; when a block raises, the exception propagates and the
state keeps every block interpreted so far (there is no reset on that
path). -/
def KBInterp.start (pyDiv : Int → Int → Except Err Int) (s : KBInterp)
    (prog : List TopItem) : Except Err KBColl × KBInterp :=
  let blocks := prog.filterMap (fun ti =>
    match ti with
    | .kb b => some b
    | .other => none)
  go s.kb_dict_collection blocks
where
  go (coll : KBColl) : List KBBlock → Except Err KBColl × KBInterp
    | [] => (.ok coll, ⟨[]⟩)
    | b :: bs =>
        match interpBlock pyDiv coll b with
        | .error e => (.error e, ⟨coll⟩)
        | .ok (name, kbDict) => go (dictUpdate coll name kbDict) bs

end KB

/-! Claim-side predicates for string-to-int conversion (from the claim text,
for comparison with the embedded string2int). -/

/-- A non-empty run of decimal digits, as described by the claim. -/
def decimalRun (s : String) : Bool :=
  !s.data.isEmpty && s.data.all Char.isDigit

/-- A 0x-prefixed hexadecimal literal (at least one hex digit after the
prefix), as described by the claim. -/
def hexLiteral (s : String) : Bool :=
  match s.data with
  | '0' :: 'x' :: rest => !rest.isEmpty && rest.all isHexChar
  | _ => false

/-- A rose tree mirroring lark Tree and Token values: a node carries its rule
name (data) and children; a token carries its type and string value. -/
inductive MTree where
  | tok (ty : String) (val : String)
  | node (data : String) (children : List MTree)
  deriving Repr

mutual

def MTree.deq : (a b : MTree) → Decidable (a = b)
  | .tok t1 v1, .tok t2 v2 =>
      if h : t1 = t2 ∧ v1 = v2 then .isTrue (by simp [h.1, h.2])
      else .isFalse (by intro hc; cases hc; exact h ⟨rfl, rfl⟩)
  | .tok _ _, .node _ _ => .isFalse (by intro hc; cases hc)
  | .node _ _, .tok _ _ => .isFalse (by intro hc; cases hc)
  | .node d1 cs1, .node d2 cs2 =>
      if h : d1 = d2 then
        match MTree.deqList cs1 cs2 with
        | .isTrue hcs => .isTrue (by simp [h, hcs])
        | .isFalse hcs => .isFalse (by intro hc; cases hc; exact hcs rfl)
      else .isFalse (by intro hc; cases hc; exact h rfl)

def MTree.deqList : (a b : List MTree) → Decidable (a = b)
  | [], [] => .isTrue rfl
  | [], _ :: _ => .isFalse (by intro hc; cases hc)
  | _ :: _, [] => .isFalse (by intro hc; cases hc)
  | a :: as1, b :: bs =>
      match MTree.deq a b, MTree.deqList as1 bs with
      | .isTrue h1, .isTrue h2 => .isTrue (by simp [h1, h2])
      | .isFalse h1, _ => .isFalse (by intro hc; cases hc; exact h1 rfl)
      | _, .isFalse h2 => .isFalse (by intro hc; cases hc; exact h2 rfl)

end

instance : DecidableEq MTree := MTree.deq

namespace RuleTranslator

/-- ERROR_CODE_BASE of rule_translator.py. -/
def ERROR_CODE_BASE : Nat := 1000

/-- ERROR_CODE_STEP of rule_translator.py. -/
def ERROR_CODE_STEP : Nat := 1000

/-- The output.value getattr tree built by rule_block. -/
def outputValue : MTree :=
  .node "getattr" [.node "var_ref" [.tok "NAME" "output"], .tok "NAME" "value"]

/-- The placeholder error code literal 1 left by rule_block. -/
def placeholderCode : MTree :=
  .node "number" [.tok "NUMBER" "1"]

/-- The nested conditional chain built by rule_block: the Python loop
inner_term = conditional_expr(stmts[-1], 1, output.value) followed by
wrapping in reverse source order is the right fold below. -/
def mkChain (stmts : List MTree) (tail : MTree) : MTree :=
  stmts.foldr (fun s acc => .node "conditional_expr" [s, placeholderCode, acc]) tail

/-- Embedding of RuleTransitionBuilder.rule_block (the leading rule-name
token argument is ignored by the Python code and omitted here).  An empty
rule yields a skip_stmt, otherwise an assignment of a guarded conditional
chain to output.value with placeholder error codes. -/
def rule_block (guard : MTree) (stmts : List MTree) : MTree :=
  match stmts with
  | [] => .node "skip_stmt" [.tok "SEMICOLON" ";"]
  | _ =>
      .node "assign_stmt"
        [outputValue, .tok "EQUAL" "=",
         .node "conditional_expr" [guard, mkChain stmts outputValue, outputValue]]

mutual

/-- Embedding of the local get_nested_level of RuleTransitionBuilder.start:
tokens have level 0; a node contributes 1 when its data matches, plus the
maximum over its children when it has any. -/
def getNestedLevel (t : MTree) (name : String) : Nat :=
  match t with
  | .tok _ _ => 0
  | .node d cs =>
      let nested := if d = name then 1 else 0
      match cs with
      | [] => nested
      | _ => nested + getNestedLevelMax cs name

def getNestedLevelMax (cs : List MTree) (name : String) : Nat :=
  match cs with
  | [] => 0
  | c :: rest => max (getNestedLevel c name) (getNestedLevelMax rest name)

end

/-- Embedding of the while loop of RuleTransitionBuilder.start that walks
the conditional chain along the else branch and overwrites each placeholder
(asserted to be a number node) with the next error code, counting up from
next; none models a failed shape assertion.  The Python pop order hands out
prefix+1, prefix+2, ... along the spine. -/
def assignCodes : MTree → Nat → Option MTree
  | .node "conditional_expr" [c, .node "number" _pl, e], next =>
      match assignCodes e (next + 1) with
      | some e2 => some (.node "conditional_expr"
          [c, .node "number" [.tok "NUMBER" (toString next)], e2])
      | none => none
  | .node "conditional_expr" _, _ => none
  | t, _ => some t

/-- True for the statement shapes kept by the filter in
RuleTransitionBuilder.start. -/
def isRuleStmt : MTree → Bool
  | .node "skip_stmt" _ => true
  | .node "assign_stmt" _ => true
  | _ => false

/-- Processing of one rule inside RuleTransitionBuilder.start: a skip_stmt
is passed through without advancing the error-code prefix (the Python
continue); an assign_stmt has its placeholder codes replaced starting at
prefix+1 and advances the prefix by ERROR_CODE_STEP; more checks than
ERROR_CODE_STEP raises MaxRuleStatementError. -/
def processRule (prefix1 : Nat) (t : MTree) : Except String (MTree × Nat) :=
  match t with
  | .node "skip_stmt" cs => .ok (.node "skip_stmt" cs, prefix1)
  | .node "assign_stmt" [l, op, .node "conditional_expr" [g, conds, e]] =>
      let n := getNestedLevel conds "conditional_expr"
      if n ≥ ERROR_CODE_STEP then .error "Too many checking statements"
      else
        match assignCodes conds (prefix1 + 1) with
        | some conds2 =>
            .ok (.node "assign_stmt"
              [l, op, .node "conditional_expr" [g, conds2, e]], prefix1 + ERROR_CODE_STEP)
        | none => .error "assertion failure"
  | _ => .error "assertion failure"

/-- The fold of processRule over the filtered rule statements. -/
def startGo (prefix1 : Nat) : List MTree → Except String (List MTree)
  | [] => .ok []
  | r :: rs => do
      let (r2, p2) ← processRule prefix1 r
      let rs2 ← startGo p2 rs
      .ok (r2 :: rs2)

/-- Embedding of RuleTransitionBuilder.start: filter the transformed
children down to rule statements, renumber their error codes from
ERROR_CODE_BASE, and wrap them in a transition_body. -/
def start (blocks : List MTree) : Except String MTree := do
  let rules := blocks.filter isRuleStmt
  let rules2 ← startGo ERROR_CODE_BASE rules
  .ok (.node "transition_body" rules2)

/-- The error codes along the else spine of a conditional chain. -/
def spineCodes : MTree → List String
  | .node "conditional_expr" [_, .node "number" [.tok _ v], e] => v :: spineCodes e
  | _ => []

/-- The error codes of one processed rule statement (empty for a skip). -/
def ruleCodes : MTree → List String
  | .node "assign_stmt" [_, _, .node "conditional_expr" [_, chain, _]] => spineCodes chain
  | _ => []

/-- The error codes of every rule of a transition body, in order. -/
def bodyRuleCodes : MTree → List (List String)
  | .node "transition_body" rules => rules.map ruleCodes
  | _ => []

end RuleTranslator

mutual

/-- Python equality on lark trees: Tree.__eq__ compares data and children;
Token is a str subclass, so two tokens compare by value with the token type
ignored. -/
def MTree.pyEq : MTree → MTree → Bool
  | .tok _ v1, .tok _ v2 => v1 == v2
  | .node d1 cs1, .node d2 cs2 => d1 == d2 && MTree.pyEqList cs1 cs2
  | _, _ => false

def MTree.pyEqList : List MTree → List MTree → Bool
  | [], [] => true
  | a :: as1, b :: bs => MTree.pyEq a b && MTree.pyEqList as1 bs
  | _, _ => false

end

namespace TypeInference

/-- The types dict of MslTypeInference: tree-keyed (under Python equality)
insertion-ordered map to type labels. -/
abbrev TypeMap := List (MTree × String)

/-- Dict assignment self.types[tree] = ty under Python tree equality. -/
def setT (m : TypeMap) (k : MTree) (v : String) : TypeMap :=
  match m with
  | [] => [(k, v)]
  | (k0, v0) :: rest =>
      if MTree.pyEq k0 k then (k, v) :: rest else (k0, v0) :: setT rest k v

/-- Dict lookup self.types.get(tree) under Python tree equality. -/
def getT (m : TypeMap) (k : MTree) : Option String :=
  match m with
  | [] => none
  | (k0, v0) :: rest => if MTree.pyEq k0 k then some v0 else getT rest k

/-- The knowledge_type attribute: flat constant name to type label. -/
abbrev KTypes := List (String × String)

/-- Embedding of MslTypeInference._get_knowledge_type; none models the
failed assertion on an empty knowledge array. -/
def getKnowledgeType : KB.KValue → Option String
  | .i _ => some "int"
  | .s _ => some "string"
  | .arr [] => none
  | .arr (.i _ :: _) => some "int[]"
  | .arr (.s _ :: _) => some "string[]"

/-- The knowledge_type map built by the MslTypeInference constructor. -/
def buildKnowledgeTypes (kb : KB.KBColl) : Option KTypes :=
  (kb.flatMap (fun p => p.2.map (fun q => (p.1 ++ "_" ++ q.1, q.2)))).mapM
    (fun p => (getKnowledgeType p.2).map (fun ty => (p.1, ty)))

/-- The python expression knowledge_type[:-2] mapping an array type label to
its element type label. -/
def stripArraySuffix (s : String) : String :=
  ⟨s.data.dropLast.dropLast⟩

/-- The spine walk shared by type inference and the SAT checker: collect the
guards of a nested conditional chain along the else branch and return them
with the final non-conditional candidate; none models the failed arity
assertion. -/
def collectConds : MTree → Option (List MTree × MTree)
  | .node "conditional_expr" [g, _, e] =>
      (collectConds e).map (fun p => (g :: p.1, p.2))
  | .node "conditional_expr" _ => none
  | t => some ([], t)

/-- The contract basic-attribute case and the fallthrough of
MslTypeInference.getattr. -/
def inferGetattrContract (m : TypeMap) (this obj : MTree) (attr : String) :
    Option (String × TypeMap) :=
  if attr = "name" ∨ attr = "owner" then
    match obj with
    | .node "getitem" [] => none
    | .node "getitem" (.node "var_ref" [] :: _) => none
    | .node "getitem" (.node "var_ref" (.tok _ v :: _) :: _) =>
        if v = "contract" then some ("string", m)
        else some ((getT m this).getD "unknown", m)
    | _ => some ((getT m this).getD "unknown", m)
  else some ((getT m this).getD "unknown", m)

/-- The tx basic-attribute case of MslTypeInference.getattr. -/
def inferGetattrTx (m : TypeMap) (this obj : MTree) (attr : String) :
    Option (String × TypeMap) :=
  if attr = "from" ∨ attr = "to" ∨ attr = "function" then
    match obj with
    | .node "var_ref" [] => none
    | .node "var_ref" (.tok _ v :: _) =>
        if v = "tx" then some ("string", m) else inferGetattrContract m this obj attr
    | _ => inferGetattrContract m this obj attr
  else inferGetattrContract m this obj attr

/-- The chained getattr special cases of MslTypeInference.getattr; obj
children are probed with Python indexing, so a missing child is an
IndexError (none). -/
def inferGetattr (m : TypeMap) (this obj : MTree) (attr : String) :
    Option (String × TypeMap) :=
  if attr = "value" then
    match obj with
    | .node "var_ref" [] => none
    | .node "var_ref" (.tok _ v :: _) =>
        if v = "output" then some ("int", m) else inferGetattrTx m this obj attr
    | _ => inferGetattrTx m this obj attr
  else inferGetattrTx m this obj attr

/-- Embedding of MslTypeInference.visit dispatch, indexed by fuel (each
child visit runs at one less fuel; the Python recursion is unbounded, so
every claim fixes a sufficiently large fuel).  The result is the returned
type label together with the updated types map; none models an uncaught
Python exception (failed assert, KeyError, visiting a Token, arity
mismatch).  The label __default__ stands for the list returned by the
inherited __default__ visitor, which compares unequal to every type label,
and __types__ for the types dict returned by the transition_body method. -/
def inferVisit : Nat → KTypes → TypeMap → MTree → Option (String × TypeMap)
  | 0, _, _, _ => none
  | _ + 1, _, _, .tok _ _ => none
  | fuel + 1, kt, m, .node "not_expr" cs =>
      match cs with
      | [operand] =>
          match inferVisit fuel kt (setT m operand "bool") operand with
          | none => none
          | some (_, m2) => some ("bool", m2)
      | _ => none
  | fuel + 1, kt, m, .node "and_expr" cs =>
      match cs with
      | [l, r] =>
          match inferVisit fuel kt (setT (setT m l "bool") r "bool") l with
          | none => none
          | some (_, m3) =>
              match inferVisit fuel kt m3 r with
              | none => none
              | some (_, m4) => some ("bool", m4)
      | _ => none
  | fuel + 1, kt, m, .node "or_expr" cs =>
      match cs with
      | [l, r] =>
          match inferVisit fuel kt (setT (setT m l "bool") r "bool") l with
          | none => none
          | some (_, m3) =>
              match inferVisit fuel kt m3 r with
              | none => none
              | some (_, m4) => some ("bool", m4)
      | _ => none
  | fuel + 1, kt, m, .node "compare_expr" cs =>
      match cs with
      | [l, _, r] =>
          match inferVisit fuel kt (setT (setT m l "int") r "int") l with
          | none => none
          | some (_, m3) =>
              match inferVisit fuel kt m3 r with
              | none => none
              | some (_, m4) => some ("bool", m4)
      | _ => none
  | fuel + 1, kt, m, .node "equality_expr" cs =>
      match cs with
      | [l, _, r] =>
          match inferVisit fuel kt m l with
          | none => none
          | some (tl, m1) =>
              match inferVisit fuel kt m1 r with
              | none => none
              | some (tr, m2) =>
                  if tl = "int" ∨ tr = "int" then
                    some ("bool", setT (setT m2 l "int") r "int")
                  else if tl = "string" ∨ tr = "string" then
                    some ("bool", setT (setT m2 l "string") r "string")
                  else if tl = "unknown" ∧ tr = "unknown" then
                    some ("bool", setT (setT m2 l "int") r "int")
                  else none
      | _ => none
  | fuel + 1, kt, m, .node "add_expr" cs =>
      match cs with
      | [l, _, r] =>
          match inferVisit fuel kt (setT (setT m l "int") r "int") l with
          | none => none
          | some (_, m3) =>
              match inferVisit fuel kt m3 r with
              | none => none
              | some (_, m4) => some ("int", m4)
      | _ => none
  | fuel + 1, kt, m, .node "mul_expr" cs =>
      match cs with
      | [l, _, r] =>
          match inferVisit fuel kt (setT (setT m l "int") r "int") l with
          | none => none
          | some (_, m3) =>
              match inferVisit fuel kt m3 r with
              | none => none
              | some (_, m4) => some ("int", m4)
      | _ => none
  | fuel + 1, kt, m, .node "power_expr" cs =>
      match cs with
      | [b, e] =>
          match inferVisit fuel kt (setT (setT m b "int") e "int") b with
          | none => none
          | some (_, m3) =>
              match inferVisit fuel kt m3 e with
              | none => none
              | some (_, m4) => some ("int", m4)
      | _ => none
  | fuel + 1, kt, m, .node "func_call" cs =>
      match cs with
      | [.tok fty fname, .node "func_arguments" args] =>
          let this := MTree.node "func_call" [.tok fty fname, .node "func_arguments" args]
          if fname = "length" then
            match args with
            | [a] =>
                match inferVisit fuel kt m a with
                | none => none
                | some (at1, m1) =>
                    let at2 := if at1 = "int[]" ∨ at1 = "string[]" then at1 else "any[]"
                    let m2 := setT m1 a at2
                    some ((getT m2 this).getD "int", m2)
            | _ => none
          else if fname = "reglang.count" then
            match args with
            | [.node "array" elems] =>
                match elems.foldlM
                    (fun mm c =>
                      match inferVisit fuel kt (setT mm c "bool") c with
                      | none => none
                      | some (_, mm2) => some mm2) m with
                | none => none
                | some m2 => some ((getT m2 this).getD "int", m2)
            | _ => none
          else if fname = "reglang.count_member" then
            match args with
            | [.node "var_ref" vcs, .node a1d a1cs] =>
                match inferVisit fuel kt m (.node "var_ref" vcs) with
                | none => none
                | some (kty, m1) =>
                    if kty = "int[]" ∨ kty = "string[]" then
                      let m2 := setT m1 (.node a1d a1cs) kty
                      match inferVisit fuel kt m2 (.node a1d a1cs) with
                      | none => none
                      | some (aty, m3) =>
                          if aty = kty ∨ a1d = "getitem" then
                            some ((getT m3 this).getD "int", m3)
                          else none
                    else none
            | _ => none
          else if fname = "reglang.contains" then
            match args with
            | [.node "var_ref" vcs, .node a1d a1cs] =>
                match inferVisit fuel kt m (.node "var_ref" vcs) with
                | none => none
                | some (kty, m1) =>
                    if kty = "int[]" ∨ kty = "string[]" then
                      let m2 := setT m1 (.node a1d a1cs) (stripArraySuffix kty)
                      match inferVisit fuel kt m2 (.node a1d a1cs) with
                      | none => none
                      | some (_, m3) => some ((getT m3 this).getD "bool", m3)
                    else none
            | _ => none
          else if fname = "reglang.count_eq" ∨ fname = "reglang.count_neq"
              ∨ fname = "reglang.count_le" ∨ fname = "reglang.count_ge"
              ∨ fname = "reglang.count_lt" ∨ fname = "reglang.count_gt" then
            match args with
            | [.node a0d a0cs, .node a1d a1cs] =>
                match inferVisit fuel kt m (.node a0d a0cs) with
                | none => none
                | some (aty, m1) =>
                    match inferVisit fuel kt m1 (.node a1d a1cs) with
                    | none => none
                    | some (ety, m2) =>
                        if ety = "int" ∨ ety = "string" then
                          let m3 := setT (setT m2 (.node a0d a0cs) (ety ++ "[]"))
                            (.node a1d a1cs) ety
                          some ((getT m3 this).getD "int", m3)
                        else if aty = "int[]" ∨ aty = "string[]" then
                          let m3 := setT (setT m2 (.node a0d a0cs) aty)
                            (.node a1d a1cs) (stripArraySuffix aty)
                          some ((getT m3 this).getD "int", m3)
                        else none
            | _ => none
          else none
      | _ => none
  | _ + 1, kt, m, .node "var_ref" cs =>
      match cs with
      | [.tok ty v] =>
          let varType :=
            match KB.dictGet kt v with
            | some ty2 => ty2
            | none => "unknown"
          some ((getT m (.node "var_ref" [.tok ty v])).getD varType, m)
      | _ => none
  | fuel + 1, kt, m, .node "getitem" cs =>
      match cs with
      | [obj, index] =>
          let this := MTree.node "getitem" [obj, index]
          match index with
          | .tok _ _ => none
          | .node idata ics =>
              if idata ≠ "string" then
                match inferVisit fuel kt (setT m (.node idata ics) "int") (.node idata ics) with
                | none => none
                | some (_, m2) => some ((getT m2 this).getD "unknown", m2)
              else some ((getT m this).getD "unknown", m)
      | _ => none
  | _ + 1, _, m, .node "getattr" cs =>
      match cs with
      | [obj, .tok "NAME" attr] =>
          let this := MTree.node "getattr" [obj, .tok "NAME" attr]
          inferGetattr m this obj attr
      | _ => none
  | fuel + 1, kt, m, .node "array" cs =>
      match cs with
      | [] => none
      | .tok "NUMBER" _ :: rest =>
          if rest.all (fun c =>
              match c with
              | .tok "NUMBER" _ => true
              | _ => false) then
            some ("int[]", m)
          else none
      | .tok "STRING" _ :: rest =>
          if rest.all (fun c =>
              match c with
              | .tok "STRING" _ => true
              | _ => false) then
            some ("string[]", m)
          else none
      | .tok _ _ :: _ => none
      | .node d0 dcs :: rest =>
          if rest.all (fun c =>
              match c with
              | .node _ _ => true
              | _ => false) then
            match (MTree.node d0 dcs :: rest).foldlM
                (fun mm c =>
                  match inferVisit fuel kt (setT mm c "bool") c with
                  | none => none
                  | some (_, mm2) => some mm2) m with
            | none => none
            | some m2 => some ("bool[]", m2)
          else none
  | _ + 1, _, m, .node "const_true" cs =>
      match cs with
      | [] => some ("bool", m)
      | _ => none
  | _ + 1, _, m, .node "const_false" cs =>
      match cs with
      | [] => some ("bool", m)
      | _ => none
  | _ + 1, _, m, .node "number" cs =>
      match cs with
      | [_] => some ("int", m)
      | _ => none
  | _ + 1, _, m, .node "string" cs =>
      match cs with
      | [_] => some ("string", m)
      | _ => none
  | fuel + 1, kt, m, .node "transition_body" cs =>
      if cs.all (fun s =>
          match s with
          | .node "skip_stmt" _ => true
          | .node "assign_stmt" _ => true
          | _ => false) then
        match cs.foldlM
            (fun mm s =>
              match s with
              | .node "skip_stmt" _ => some mm
              | .node "assign_stmt" [ov, eqs, cond] =>
                  match ov, eqs, cond with
                  | .node "getattr" ovcs, .tok _ "=", .node "conditional_expr" ccs =>
                      match ccs with
                      | [g, tv, ev] =>
                          let mm1 := setT (setT mm (.node "getattr" ovcs) "int")
                            (.node "conditional_expr" ccs) "int"
                          let mm2 := setT (setT (setT mm1 g "bool") tv "int") ev "int"
                          match collectConds tv with
                          | none => none
                          | some (spineConds, final) =>
                              match final with
                              | .node "getattr" _ =>
                                  (g :: spineConds).foldlM
                                    (fun m3 c =>
                                      match inferVisit fuel kt (setT m3 c "bool") c with
                                      | none => none
                                      | some (_, m4) => some m4) mm2
                              | _ => none
                      | _ => none
                  | _, _, _ => none
              | _ => none)
            m with
        | none => none
        | some m2 => some ("__types__", m2)
      else none
  | fuel + 1, kt, m, .node _ cs =>
      match cs.foldlM
          (fun mm c =>
            match c with
            | .tok _ _ => some mm
            | _ =>
                match inferVisit fuel kt mm c with
                | none => none
                | some (_, mm2) => some mm2) m with
      | none => none
      | some m2 => some ("__default__", m2)

end TypeInference

namespace Serializer

/-- The precedence table of MslAstSerializer (tightest first). -/
def precOf : String → Option Nat
  | "power_expr" => some 1
  | "mul_expr" => some 2
  | "add_expr" => some 3
  | "equality_expr" => some 4
  | "compare_expr" => some 5
  | "not_expr" => some 6
  | "and_expr" => some 7
  | "or_expr" => some 8
  | "conditional_expr" => some 9
  | _ => none

/-- Embedding of _has_higher_precedence: the left name is always a table
key at every call site; an absent right name defaults to 0. -/
def hasHigherPrecedence (this that : String) : Bool :=
  match precOf this with
  | some p => p < (precOf that).getD 0
  | none => false

/-- True when the rule name is in the precedence table. -/
def inPrecedence (d : String) : Bool := (precOf d).isSome

/-- Split a character list at newline characters. -/
def splitLinesChar (cs : List Char) : List (List Char) :=
  match cs with
  | [] => [[]]
  | c :: rest =>
      let ls := splitLinesChar rest
      if c = '\n' then [] :: ls
      else
        match ls with
        | [] => [[c]]
        | l :: ls2 => (c :: l) :: ls2

/-- Join string parts with a newline. -/
def joinNewline (ls : List String) : String :=
  match ls with
  | [] => ""
  | l :: rest => rest.foldl (fun acc x => acc ++ "\n" ++ x) l

/-- Model of textwrap.indent with the default predicate: prefix every line
that contains a non-whitespace character. -/
def pyIndent (s pre : String) : String :=
  joinNewline ((splitLinesChar s.data).map (fun l =>
    if l.any (fun c => !(c = ' ' ∨ c = '\t' ∨ c = '\x0b' ∨ c = '\x0c' ∨ c = '\r')) then
      pre ++ String.mk l
    else String.mk l))

/-- Length of a Python string in characters. -/
def pyLen (s : String) : Nat := s.data.length

/-- Join string parts with a comma and a space. -/
def joinComma (parts : List String) : String :=
  match parts with
  | [] => ""
  | p :: rest => rest.foldl (fun acc x => acc ++ ", " ++ x) p

/-- The parenthesization of _binary_expr once both operands are rendered:
a strictly tighter operator than a child's operator parenthesizes that
child, and a power child of a power is parenthesized on the left
(right-associativity). -/
def binaryParens (this ld rd ls rs op : String) : String :=
  let ls2 :=
    if hasHigherPrecedence this ld ∨ (this = ld ∧ this = "power_expr") then
      "(" ++ ls ++ ")"
    else ls
  let rs2 := if hasHigherPrecedence this rd then "(" ++ rs ++ ")" else rs
  ls2 ++ " " ++ op ++ " " ++ rs2

/-- Embedding of MslAstSerializer as a fuel-indexed visitor; none models an
uncaught exception (visiting a Token directly, an arity mismatch of an
inline method, or a dispatch to the inherited default, whose list return
value crashes at every use site inside this repository). -/
def serialize : Nat → MTree → Option String
  | 0, _ => none
  | _ + 1, .tok _ _ => none
  | fuel + 1, .node "rule" cs =>
      cs.foldlM
        (fun acc c =>
          match c with
          | .tok _ v => some (acc ++ v)
          | _ =>
              match serialize fuel c with
              | none => none
              | some s => some (acc ++ s)) ""
  | fuel + 1, .node "conditional_expr" cs =>
      match cs with
      | [guard, thenv, elsev] =>
          match guard, thenv, elsev with
          | .node gd gcs, .node td tcs, .node ed ecs =>
              match serialize fuel (.node gd gcs), serialize fuel (.node td tcs),
                  serialize fuel (.node ed ecs) with
              | some cstr, some tstr, some estr =>
                  let cstr2 := if inPrecedence gd then "(" ++ cstr ++ ")" else cstr
                  let tstr2 :=
                    if inPrecedence td then
                      if pyLen tstr < 50 then "(" ++ tstr ++ ")"
                      else "(\n" ++ pyIndent tstr "    " ++ "\n)"
                    else tstr
                  let estr2 :=
                    if inPrecedence ed then
                      if pyLen estr < 50 then "(" ++ estr ++ ")"
                      else "(\n" ++ pyIndent estr "    " ++ "\n)"
                    else estr
                  let lb := if pyLen cstr2 < 30 then " " else "\n"
                  some (cstr2 ++ " ?" ++ lb ++ tstr2 ++ " : " ++ estr2)
              | _, _, _ => none
          | _, _, _ => none
      | _ => none
  | _ + 1, .node "skip_stmt" cs =>
      match cs with
      | [_] => some ";"
      | _ => none
  | fuel + 1, .node "assign_stmt" cs =>
      match cs with
      | [.node ld lcs, .tok _ opv, .node rd rcs] =>
          match serialize fuel (.node ld lcs), serialize fuel (.node rd rcs) with
          | some ls, some rs => some (ls ++ " " ++ opv ++ " " ++ rs ++ ";")
          | _, _ => none
      | _ => none
  | fuel + 1, .node "or_expr" cs =>
      match cs with
      | [.node ld lcs, .node rd rcs] =>
          match serialize fuel (.node ld lcs), serialize fuel (.node rd rcs) with
          | some ls, some rs => some (binaryParens "or_expr" ld rd ls rs "||")
          | _, _ => none
      | _ => none
  | fuel + 1, .node "and_expr" cs =>
      match cs with
      | [.node ld lcs, .node rd rcs] =>
          match serialize fuel (.node ld lcs), serialize fuel (.node rd rcs) with
          | some ls, some rs => some (binaryParens "and_expr" ld rd ls rs "&&")
          | _, _ => none
      | _ => none
  | fuel + 1, .node "not_expr" cs =>
      match cs with
      | [.node od ocs] =>
          match serialize fuel (.node od ocs) with
          | none => none
          | some os =>
              let os2 :=
                if od = "equality_expr" ∨ od = "compare_expr" ∨ od = "and_expr"
                    ∨ od = "or_expr" then
                  "(" ++ os ++ ")"
                else os
              some ("!" ++ os2)
      | _ => none
  | _ + 1, .node "const_true" cs =>
      match cs with
      | [] => some "true"
      | _ => none
  | _ + 1, .node "const_false" cs =>
      match cs with
      | [] => some "false"
      | _ => none
  | fuel + 1, .node "compare_expr" cs =>
      match cs with
      | [.node ld lcs, .tok _ opv, .node rd rcs] =>
          match serialize fuel (.node ld lcs), serialize fuel (.node rd rcs) with
          | some ls, some rs => some (binaryParens "compare_expr" ld rd ls rs opv)
          | _, _ => none
      | _ => none
  | fuel + 1, .node "equality_expr" cs =>
      match cs with
      | [.node ld lcs, .tok _ opv, .node rd rcs] =>
          match serialize fuel (.node ld lcs), serialize fuel (.node rd rcs) with
          | some ls, some rs => some (binaryParens "equality_expr" ld rd ls rs opv)
          | _, _ => none
      | _ => none
  | fuel + 1, .node "add_expr" cs =>
      match cs with
      | [.node ld lcs, .tok _ opv, .node rd rcs] =>
          match serialize fuel (.node ld lcs), serialize fuel (.node rd rcs) with
          | some ls, some rs => some (binaryParens "add_expr" ld rd ls rs opv)
          | _, _ => none
      | _ => none
  | fuel + 1, .node "mul_expr" cs =>
      match cs with
      | [.node ld lcs, .tok _ opv, .node rd rcs] =>
          match serialize fuel (.node ld lcs), serialize fuel (.node rd rcs) with
          | some ls, some rs => some (binaryParens "mul_expr" ld rd ls rs opv)
          | _, _ => none
      | _ => none
  | fuel + 1, .node "power_expr" cs =>
      match cs with
      | [.node ld lcs, .node rd rcs] =>
          match serialize fuel (.node ld lcs), serialize fuel (.node rd rcs) with
          | some ls, some rs => some (binaryParens "power_expr" ld rd ls rs "**")
          | _, _ => none
      | _ => none
  | fuel + 1, .node "func_call" cs =>
      if cs.length = 2 ∨ cs.length = 3 then
        cs.foldlM
          (fun acc c =>
            match c with
            | .tok _ v => some (acc ++ v)
            | _ =>
                match serialize fuel c with
                | none => none
                | some s => some (acc ++ s)) ""
      else none
  | fuel + 1, .node "func_templates" cs =>
      match cs.mapM (fun c =>
          match c with
          | .tok _ v => some v
          | _ => serialize fuel c) with
      | none => none
      | some parts => some ("<" ++ joinComma parts ++ ">")
  | fuel + 1, .node "func_arguments" cs =>
      match cs.mapM (fun c =>
          match c with
          | .tok _ v => some v
          | _ => serialize fuel c) with
      | none => none
      | some parts => some ("(" ++ joinComma parts ++ ")")
  | _ + 1, .node "var_ref" cs =>
      match cs with
      | [.tok _ v] => some v
      | _ => none
  | fuel + 1, .node "getitem" cs =>
      match cs with
      | [.node ad acs, .node idd idcs] =>
          match serialize fuel (.node ad acs), serialize fuel (.node idd idcs) with
          | some as1, some is1 => some (as1 ++ "[" ++ is1 ++ "]")
          | _, _ => none
      | _ => none
  | fuel + 1, .node "getattr" cs =>
      match cs with
      | [.node od ocs, .tok _ attr] =>
          match serialize fuel (.node od ocs) with
          | none => none
          | some os => some (os ++ "." ++ attr)
      | _ => none
  | fuel + 1, .node "array" cs =>
      match cs.mapM (fun c =>
          match c with
          | .tok _ v => some v
          | _ => serialize fuel c) with
      | none => none
      | some parts => some ("[" ++ joinComma parts ++ "]")
  | _ + 1, .node "number" cs =>
      match cs with
      | [.tok _ v] => some v
      | _ => none
  | _ + 1, .node "string" cs =>
      match cs with
      | [.tok _ v] => some v
      | _ => none
  | _ + 1, .node _ _ => none

end Serializer

namespace Se

/-- The cvc5 sorts used by the checker. -/
inductive CSort where
  | int
  | str
  | bool
  | seq (e : CSort)
  deriving Repr, DecidableEq

/-- The cvc5 term kinds the checker constructs. -/
inductive CKind where
  | and
  | or
  | not
  | leq
  | lt
  | geq
  | gt
  | equal
  | distinct
  | add
  | sub
  | mult
  | intsDivision
  | intsModulus
  | pow
  | ite
  | seqUnit
  | seqConcat
  | seqContains
  | seqNth
  | seqLength
  deriving Repr, DecidableEq

/-- Terms of the opaque solver: applications, literals, and declared
constants (declareFun with the same name is shared through the symbols
dict, so a symbol is a pure function of its name and sort). -/
inductive CTerm where
  | app (k : CKind) (args : List CTerm)
  | intLit (n : Int)
  | strLit (s : String)
  | boolLit (b : Bool)
  | sym (name : String) (sort : CSort)
  deriving Repr

/-- The sort of a term as cvc5 getSort reports it, none when malformed. -/
def CTerm.sort : CTerm → Option CSort
  | .intLit _ => some .int
  | .strLit _ => some .str
  | .boolLit _ => some .bool
  | .sym _ s => some s
  | .app k args =>
      match k with
      | .and => some .bool
      | .or => some .bool
      | .not => some .bool
      | .leq => some .bool
      | .lt => some .bool
      | .geq => some .bool
      | .gt => some .bool
      | .equal => some .bool
      | .distinct => some .bool
      | .seqContains => some .bool
      | .seqLength => some .int
      | .add => match args with | a :: _ => a.sort | [] => none
      | .sub => match args with | a :: _ => a.sort | [] => none
      | .mult => match args with | a :: _ => a.sort | [] => none
      | .intsDivision => match args with | a :: _ => a.sort | [] => none
      | .intsModulus => match args with | a :: _ => a.sort | [] => none
      | .pow => match args with | a :: _ => a.sort | [] => none
      | .ite => match args with | [_, t, _] => t.sort | _ => none
      | .seqUnit => match args with | [a] => a.sort.map .seq | _ => none
      | .seqConcat => match args with | a :: _ => a.sort | [] => none
      | .seqNth =>
          match args with
          | a :: _ =>
              match a.sort with
              | some (.seq e) => some e
              | _ => none
          | [] => none

/-- Embedding of RuleSatChecker._get_symbol_sort. -/
def sortOfType : String → Option CSort
  | "int" => some .int
  | "string" => some .str
  | "bool" => some .bool
  | "int[]" => some (.seq .int)
  | "string[]" => some (.seq .str)
  | "bool[]" => some (.seq .bool)
  | _ => none

/-- Embedding of RuleSatChecker._const2term; none models the failed
non-empty assertion (and the unreachable heterogeneous array). -/
def const2term : KB.KValue → Option CTerm
  | .i n => some (.intLit n)
  | .s st => some (.strLit st)
  | .arr [] => none
  | .arr (KB.PyVal.i n0 :: rest) =>
      match rest.mapM (fun e =>
          match e with
          | KB.PyVal.i n => some (CTerm.app .seqUnit [.intLit n])
          | KB.PyVal.s _ => none) with
      | none => none
      | some units =>
          let units0 := CTerm.app .seqUnit [.intLit n0] :: units
          match units0 with
          | [u] => some u
          | _ => some (.app .seqConcat units0)
  | .arr (KB.PyVal.s s0 :: rest) =>
      match rest.mapM (fun e =>
          match e with
          | KB.PyVal.s s => some (CTerm.app .seqUnit [.strLit s])
          | KB.PyVal.i _ => none) with
      | none => none
      | some units =>
          let units0 := CTerm.app .seqUnit [.strLit s0] :: units
          match units0 with
          | [u] => some u
          | _ => some (.app .seqConcat units0)

/-- The symbols dict of the checker. -/
abbrev SeState := List (String × CTerm)

/-- declareFun followed by symbols.setdefault: reuse the stored term when
the name is present, otherwise record and return the fresh symbol. -/
def setdefaultSym (s : SeState) (name : String) (sort : CSort) :
    CTerm × SeState :=
  match KB.dictGet s name with
  | some t0 => (t0, s)
  | none => (.sym name sort, KB.dictUpdate s name (.sym name sort))

/-- Model of the Python str.strip applied with the double-quote character:
remove every leading and trailing quote. -/
def pyStripQuotes (s : String) : String :=
  ⟨((s.data.dropWhile (fun c => c = '"')).reverse.dropWhile
      (fun c => c = '"')).reverse⟩

/-- Embedding of the expression methods of RuleSatChecker as a fuel-indexed
visitor over the MSL AST; sfuel is the fuel handed to the serializer for
symbol names (never decremented).  The state is the symbols dict; none
models an uncaught exception (failed sort assert, KeyError on the types
dict, a Token where a Tree is required, cvc5 rejecting a malformed call). -/
def seVisit (sfuel : Nat) :
    Nat → List (String × KB.KValue) → TypeInference.TypeMap → SeState →
    MTree → Option (CTerm × SeState)
  | 0, _, _, _, _ => none
  | _ + 1, _, _, _, .tok _ _ => none
  | fuel + 1, kc, T, s, .node "not_expr" cs =>
      match cs with
      | [operand] =>
          match seVisit sfuel fuel kc T s operand with
          | none => none
          | some (t, s1) =>
              if t.sort = some .bool then some (.app .not [t], s1) else none
      | _ => none
  | fuel + 1, kc, T, s, .node "and_expr" cs =>
      match cs with
      | [l, r] =>
          match seVisit sfuel fuel kc T s l with
          | none => none
          | some (lt1, s1) =>
              match seVisit sfuel fuel kc T s1 r with
              | none => none
              | some (rt1, s2) =>
                  if lt1.sort = some .bool ∧ rt1.sort = some .bool then
                    some (.app .and [lt1, rt1], s2)
                  else none
      | _ => none
  | fuel + 1, kc, T, s, .node "or_expr" cs =>
      match cs with
      | [l, r] =>
          match seVisit sfuel fuel kc T s l with
          | none => none
          | some (lt1, s1) =>
              match seVisit sfuel fuel kc T s1 r with
              | none => none
              | some (rt1, s2) =>
                  if lt1.sort = some .bool ∧ rt1.sort = some .bool then
                    some (.app .or [lt1, rt1], s2)
                  else none
      | _ => none
  | fuel + 1, kc, T, s, .node "compare_expr" cs =>
      match cs with
      | [l, .tok _ opv, r] =>
          match seVisit sfuel fuel kc T s l with
          | none => none
          | some (lt1, s1) =>
              match seVisit sfuel fuel kc T s1 r with
              | none => none
              | some (rt1, s2) =>
                  if lt1.sort = rt1.sort then
                    let k : CKind :=
                      if opv = "<=" then .leq
                      else if opv = "<" then .lt
                      else if opv = ">=" then .geq
                      else .gt
                    some (.app k [lt1, rt1], s2)
                  else none
      | _ => none
  | fuel + 1, kc, T, s, .node "equality_expr" cs =>
      match cs with
      | [l, .tok _ opv, r] =>
          match seVisit sfuel fuel kc T s l with
          | none => none
          | some (lt1, s1) =>
              match seVisit sfuel fuel kc T s1 r with
              | none => none
              | some (rt1, s2) =>
                  if lt1.sort = rt1.sort then
                    some (.app (if opv = "==" then .equal else .distinct) [lt1, rt1], s2)
                  else none
      | _ => none
  | _ + 1, _, _, s, .node "const_true" cs =>
      match cs with
      | [] => some (.boolLit true, s)
      | _ => none
  | _ + 1, _, _, s, .node "const_false" cs =>
      match cs with
      | [] => some (.boolLit false, s)
      | _ => none
  | fuel + 1, kc, T, s, .node "add_expr" cs =>
      match cs with
      | [l, .tok _ opv, r] =>
          match seVisit sfuel fuel kc T s l with
          | none => none
          | some (lt1, s1) =>
              match seVisit sfuel fuel kc T s1 r with
              | none => none
              | some (rt1, s2) =>
                  if lt1.sort = rt1.sort then
                    some (.app (if opv = "+" then .add else .sub) [lt1, rt1], s2)
                  else none
      | _ => none
  | fuel + 1, kc, T, s, .node "mul_expr" cs =>
      match cs with
      | [l, .tok _ opv, r] =>
          match seVisit sfuel fuel kc T s l with
          | none => none
          | some (lt1, s1) =>
              match seVisit sfuel fuel kc T s1 r with
              | none => none
              | some (rt1, s2) =>
                  if lt1.sort = rt1.sort then
                    let k : CKind :=
                      if opv = "*" then .mult
                      else if opv = "/" then .intsDivision
                      else .intsModulus
                    some (.app k [lt1, rt1], s2)
                  else none
      | _ => none
  | fuel + 1, kc, T, s, .node "power_expr" cs =>
      match cs with
      | [b, e] =>
          match seVisit sfuel fuel kc T s b with
          | none => none
          | some (bt, s1) =>
              match seVisit sfuel fuel kc T s1 e with
              | none => none
              | some (et, s2) =>
                  if bt.sort = et.sort then some (.app .pow [bt, et], s2) else none
      | _ => none
  | fuel + 1, kc, T, s, .node "func_call" cs =>
      match cs with
      | [] => none
      | c0 :: _ =>
          if cs.length = 2 ∨ cs.length = 3 then
            match c0, cs.getLast? with
            | .tok _ fname, some (.node _lastd lastcs) =>
                match lastcs.foldlM
                    (fun (acc : List CTerm × SeState) c =>
                      match c with
                      | .tok _ _ => some acc
                      | _ =>
                          match seVisit sfuel fuel kc T acc.2 c with
                          | none => none
                          | some (t, s2) => some (acc.1 ++ [t], s2)) ([], s) with
                | none => none
                | some (arguments, s1) =>
                    if fname = "length" then
                      match arguments with
                      | [sq] => some (.app .seqLength [sq], s1)
                      | _ => none
                    else if fname = "reglang.count" then
                      match lastcs with
                      | [.node "array" elems] =>
                          match elems.foldlM
                              (fun (acc : List CTerm × SeState) c =>
                                match c with
                                | .tok _ _ => some acc
                                | _ =>
                                    match seVisit sfuel fuel kc T acc.2 c with
                                    | none => none
                                    | some (t, s2) => some (acc.1 ++ [t], s2))
                              ([], s1) with
                          | none => none
                          | some (conditions, s2) =>
                              let intTerms := conditions.map
                                (fun c => CTerm.app .ite [c, .intLit 1, .intLit 0])
                              match intTerms with
                              | [t] => some (t, s2)
                              | _ => some (.app .add intTerms, s2)
                      | _ => none
                    else if fname = "reglang.contains" then
                      match arguments with
                      | [sq, element] =>
                          some (.app .seqContains [sq, .app .seqUnit [element]], s1)
                      | _ => none
                    else if fname = "reglang.count_member" ∨ fname = "reglang.count_le"
                        ∨ fname = "reglang.count_ge" ∨ fname = "reglang.count_lt"
                        ∨ fname = "reglang.count_gt" ∨ fname = "reglang.count_eq"
                        ∨ fname = "reglang.count_neq" then
                      match arguments with
                      | [_, _] =>
                          match Serializer.serialize sfuel (.node "func_call" cs) with
                          | none => none
                          | some symName => some (setdefaultSym s1 symName .int)
                      | _ => none
                    else none
            | _, _ => none
          else none
  | _ + 1, kc, T, s, .node "var_ref" cs =>
      match cs with
      | [.tok vty v] =>
          match KB.dictGet kc v with
          | some const =>
              match const2term const with
              | none => none
              | some t => some (t, s)
          | none =>
              match TypeInference.getT T (.node "var_ref" [.tok vty v]) with
              | none => none
              | some ty =>
                  match sortOfType ty with
                  | none => none
                  | some sort => some (setdefaultSym s v sort)
      | _ => none
  | fuel + 1, kc, T, s, .node "getitem" cs =>
      match cs with
      | [obj, index] =>
          let this := MTree.node "getitem" [obj, index]
          match TypeInference.getT T this with
          | none => none
          | some thisTy =>
              match sortOfType thisTy with
              | none => none
              | some symbolSort =>
                  match index with
                  | .tok _ _ => none
                  | .node idata ics =>
                      if idata ≠ "string" then
                        match seVisit sfuel fuel kc T s (.node idata ics) with
                        | none => none
                        | some (indexTerm, s1) =>
                            if indexTerm.sort = some .int then
                              if thisTy = "int" ∨ thisTy = "string" ∨ thisTy = "bool" then
                                match sortOfType (thisTy ++ "[]") with
                                | none => none
                                | some seqSort =>
                                    match Serializer.serialize sfuel obj with
                                    | none => none
                                    | some seqName =>
                                        let (seqSym, s2) := setdefaultSym s1 seqName seqSort
                                        some (.app .seqNth [seqSym, indexTerm], s2)
                              else none
                            else none
                      else
                        match Serializer.serialize sfuel this with
                        | none => none
                        | some symName => some (setdefaultSym s symName symbolSort)
      | _ => none
  | _ + 1, _kc, T, s, .node "getattr" cs =>
      match cs with
      | [obj, attr] =>
          let this := MTree.node "getattr" [obj, attr]
          match Serializer.serialize sfuel this with
          | none => none
          | some symName =>
              match TypeInference.getT T this with
              | none => none
              | some ty =>
                  match sortOfType ty with
                  | none => none
                  | some sort => some (setdefaultSym s symName sort)
      | _ => none
  | fuel + 1, kc, T, s, .node "array" cs =>
      match cs.foldlM
          (fun (acc : List CTerm × SeState) c =>
            match c with
            | .tok _ _ => none
            | _ =>
                match seVisit sfuel fuel kc T acc.2 c with
                | none => none
                | some (t, s2) => some (acc.1 ++ [t], s2)) ([], s) with
      | none => none
      | some (elems, s1) =>
          if cs.isEmpty then none
          else some (.app .seqConcat (elems.map (fun e => CTerm.app .seqUnit [e])), s1)
  | _ + 1, _, _, s, .node "number" cs =>
      match cs with
      | [.tok _ v] =>
          match string2int v with
          | .error _ => none
          | .ok none => none
          | .ok (some n) => some (.intLit n, s)
      | _ => none
  | _ + 1, _, _, s, .node "string" cs =>
      match cs with
      | [.tok _ v] => some (.strLit (pyStripQuotes v), s)
      | _ => none
  | _ + 1, _, _, _, .node _ _ => none

/-- Embedding of the local negated_expr of RuleSatChecker.transition_body:
peel one not_expr, otherwise wrap in one; none is the IndexError on a
childless not_expr. -/
def negatedExpr : MTree → Option MTree
  | .node "not_expr" [] => none
  | .node "not_expr" (c :: _) => some c
  | t => some (.node "not_expr" [t])

/-- The map of negated_expr followed by the visits of the negated check
conditions, threading the solver state in source order. -/
def visitNegChecks (sfuel fuel : Nat) (kc : List (String × KB.KValue))
    (T : TypeInference.TypeMap) :
    SeState → List MTree → Option (List CTerm × SeState)
  | s, [] => some ([], s)
  | s, c :: rest =>
      match negatedExpr c with
      | none => none
      | some nc =>
          match seVisit sfuel fuel kc T s nc with
          | none => none
          | some (t, s1) =>
              match visitNegChecks sfuel fuel kc T s1 rest with
              | none => none
              | some (ts, s2) => some (t :: ts, s2)

/-- The processing of one rule statement inside
RuleSatChecker.transition_body: a skip contributes nothing; an assign
yields the conjunction of the visited guard and the conjunction (or the
single term) of the visited negated checks. -/
def seProcessRule (sfuel fuel : Nat) (kc : List (String × KB.KValue))
    (T : TypeInference.TypeMap) (s : SeState) (stmt : MTree) :
    Option (Option CTerm × SeState) :=
  match stmt with
  | .node "skip_stmt" _ => some (none, s)
  | .node "assign_stmt" cs =>
      match cs with
      | [_, _, .node "conditional_expr" ccs] =>
          match ccs with
          | [premise, thenv, _] =>
              match TypeInference.collectConds thenv with
              | none => none
              | some (conds, final) =>
                  match final with
                  | .node "getattr" _ =>
                      match seVisit sfuel fuel kc T s premise with
                      | none => none
                      | some (p, s1) =>
                          match visitNegChecks sfuel fuel kc T s1 conds with
                          | none => none
                          | some (ts, s2) =>
                              match ts with
                              | [] => none
                              | [t] => some (some (.app .and [p, t]), s2)
                              | _ => some (some (.app .and [p, .app .and ts]), s2)
                  | _ => none
          | _ => none
      | _ => none
  | _ => none

/-- The fold of seProcessRule over the statements, collecting the rule
formulas in order. -/
def seRules (sfuel fuel : Nat) (kc : List (String × KB.KValue))
    (T : TypeInference.TypeMap) :
    SeState → List MTree → Option (List CTerm × SeState)
  | s, [] => some ([], s)
  | s, stmt :: rest =>
      match seProcessRule sfuel fuel kc T s stmt with
      | none => none
      | some (f?, s1) =>
          match seRules sfuel fuel kc T s1 rest with
          | none => none
          | some (fs, s2) =>
              some ((match f? with | some f => f :: fs | none => fs), s2)

/-- The observable interaction with the solver: the asserted formulas in
order and the number of checkSat calls. -/
structure SolverTrace where
  asserted : List CTerm
  checkSatCalls : Nat
  deriving Repr

/-- Embedding of RuleSatChecker.transition_body: after _reset, run the type
inference, lower every rule into one formula, assert them all, and issue a
single checkSat. -/
def seTransitionBody (sfuel fuel : Nat) (kc : List (String × KB.KValue))
    (kt : TypeInference.KTypes) (stmts : List MTree) : Option SolverTrace :=
  if stmts.all (fun st =>
      match st with
      | .node "skip_stmt" _ => true
      | .node "assign_stmt" _ => true
      | _ => false) then
    match TypeInference.inferVisit fuel kt [] (.node "transition_body" stmts) with
    | none => none
    | some (_, T) =>
        match seRules sfuel fuel kc T [] stmts with
        | none => none
        | some (formulas, _) => some ⟨formulas, 1⟩
  else none

mutual

/-- Propositional evaluation of a formula under a valuation of its
non-boolean-connective atoms: only AND, OR and unary NOT are interpreted,
every other term is an atom. -/
def evalB (v : CTerm → Bool) : CTerm → Bool
  | .app .and args => evalBAll v args
  | .app .or args => evalBAny v args
  | .app .not [a] => !evalB v a
  | t => v t

def evalBAll (v : CTerm → Bool) : List CTerm → Bool
  | [] => true
  | a :: rest => evalB v a && evalBAll v rest

def evalBAny (v : CTerm → Bool) : List CTerm → Bool
  | [] => false
  | a :: rest => evalB v a || evalBAny v rest

end

/-- The lowered term of an original (un-negated) check predicate, recovered
from the term the checker visited for its negation: a require-lowered check
not_expr(d) lowers to NOT of the visited term of d, and any other check c
lowers to the operand under the NOT the checker built for it. -/
def origTerm (c : MTree) (t : CTerm) : Option CTerm :=
  match c with
  | .node "not_expr" _ => some (.app .not [t])
  | _ =>
      match t with
      | .app .not [tc] => some tc
      | _ => none

/-- The lowered terms of all original check predicates of one rule, paired
with the terms the checker visited for their negations. -/
def origCheckTerms : List MTree → List CTerm → Option (List CTerm)
  | [], _ => some []
  | _ :: _, [] => some []
  | c :: cs, t :: ts =>
      match origTerm c t with
      | none => none
      | some ct =>
          match origCheckTerms cs ts with
          | none => none
          | some cts => some (ct :: cts)

/-- True for the assign_stmt statements (the non-empty rules). -/
def isAssignNode : MTree → Bool
  | .node "assign_stmt" _ => true
  | _ => false

/-- The conclusion term of one rule: the single negated-check term when
there is exactly one, else their n-ary conjunction. -/
def conj_of (ts : List CTerm) : CTerm :=
  match ts with
  | [t] => t
  | _ => .app .and ts

end Se

/-- The else-spine conditional chain of one compiled rule, each check
paired with its error-code node, ending at output.value (the shape
rule_block builds and start renumbers). -/
def seChain (ccs : List (MTree × MTree)) : MTree :=
  ccs.foldr (fun cc acc => .node "conditional_expr" [cc.1, cc.2, acc])
    RuleTranslator.outputValue

/-- One compiled non-empty rule statement as the SAT checker receives it. -/
def seRule (g : MTree) (ccs : List (MTree × MTree)) : MTree :=
  .node "assign_stmt" [RuleTranslator.outputValue, .tok "EQUAL" "=",
    .node "conditional_expr" [g, seChain ccs, RuleTranslator.outputValue]]

/-- The C1 scenario program:
knowledgebase kb knowledge a = [1]; a.add("2"); end. -/
def c1Program : List KB.TopItem :=
  [.kb ⟨"kb", [.init "a" (.array [.num "1"]), .alt "a" .add (.string "\"2\"")]⟩]

/-- Failed first input for C9: its second block references an undefined
knowledge base, so interpretation aborts after the block foo is recorded. -/
def c9ProgramA : List KB.TopItem :=
  [.kb ⟨"foo", [.init "bar" (.number "1")]⟩,
   .kb ⟨"bad", [.init "x" (.knowledgeRef "nope" "y")]⟩]

/-- Second input for C9: references knowledgebase(foo).bar, which only a
stale collection can resolve. -/
def c9ProgramB : List KB.TopItem :=
  [.kb ⟨"baz", [.init "b" (.knowledgeRef "foo" "bar")]⟩]

/-- The guard of the C8 witness rule. -/
def c8Guard : MTree := .node "const_true" []

/-- The single check of the C8 witness rule. -/
def c8Check : MTree := .node "const_false" []

/-- The error-code node of the C8 witness rule. -/
def c8Code : MTree := .node "number" [.tok "NUMBER" "1001"]

/-- The check list of the C8 witness rule. -/
def c8Ccs : List (MTree × MTree) := [(c8Check, c8Code)]

/-- The types map the inference pass computes for the C8 witness rule. -/
def c8Types : List (MTree × String) :=
  [(RuleTranslator.outputValue, "int"),
   (.node "conditional_expr"
      [c8Guard, .node "conditional_expr" [c8Check, c8Code, RuleTranslator.outputValue],
       RuleTranslator.outputValue], "int"),
   (c8Guard, "bool"),
   (.node "conditional_expr" [c8Check, c8Code, RuleTranslator.outputValue], "int"),
   (c8Check, "bool")]

/-- The unification result of equality_expr as the code computes it: int
wins over string regardless of operand order, and two unknowns default to
int. -/
def unifiedType (tl tr : String) : String :=
  if tl = "int" ∨ tr = "int" then "int"
  else if tl = "string" ∨ tr = "string" then "string"
  else "int"

/-- A string-literal operand tree for the C7 scenario. -/
def c7Left : MTree := .node "string" [.tok "STRING" "\"a\""]

/-- A number-literal operand tree for the C7 scenario. -/
def c7Right : MTree := .node "number" [.tok "NUMBER" "1"]

/-- The C7 scenario equality node with a string left operand and an int
right operand. -/
def c7EqTree : MTree := .node "equality_expr" [c7Left, .tok "EQ" "==", c7Right]

/-- A concrete rule guard used in rule-numbering scenarios. -/
def cGuard : MTree := .node "const_true" []

/-- A concrete check condition used in rule-numbering scenarios. -/
def cCheckX : MTree := .node "var_ref" [.tok "NAME" "x"]

/-- A second concrete check condition used in rule-numbering scenarios. -/
def cCheckY : MTree := .node "var_ref" [.tok "NAME" "y"]

namespace KB

/-- Helper: adding values that are all already present leaves the array
unchanged (the add loop only appends values that are not members). -/
theorem applyAlt_add_subset (vals : List PyVal) (arr : List PyVal)
    (h : ∀ v ∈ vals, v ∈ arr) : applyAlt .add arr vals = arr := by
  induction vals with
  | nil => rfl
  | cons v vs ih =>
      have hv : v ∈ arr := h v (List.mem_cons_self v vs)
      have hstep : applyAlt .add arr (v :: vs) = applyAlt .add arr vs := by
        simp [applyAlt, List.foldl_cons, hv]
      rw [hstep]
      exact ih (fun w hw => h w (List.mem_cons_of_mem v hw))

/-- Helper: the del loop only removes elements. -/
theorem applyAlt_del_subset (vals : List PyVal) (arr : List PyVal) :
    applyAlt .del arr vals ⊆ arr := by
  induction vals generalizing arr with
  | nil => exact fun x hx => hx
  | cons v vs ih =>
      have hstep : applyAlt .del arr (v :: vs)
          = applyAlt .del (if v ∈ arr then arr.erase v else arr) vs := by
        simp only [applyAlt, List.foldl_cons]
      rw [hstep]
      intro x hx
      have hx2 := ih (if v ∈ arr then arr.erase v else arr) hx
      by_cases hv : v ∈ arr
      · simp only [hv, if_true] at hx2
        exact List.erase_subset _ _ hx2
      · simpa [hv] using hx2

/-- Helper: the del loop preserves duplicate-freeness. -/
theorem applyAlt_del_nodup (vals : List PyVal) (arr : List PyVal)
    (h : arr.Nodup) : (applyAlt .del arr vals).Nodup := by
  induction vals generalizing arr with
  | nil => exact h
  | cons v vs ih =>
      have hstep : applyAlt .del arr (v :: vs)
          = applyAlt .del (if v ∈ arr then arr.erase v else arr) vs := by
        simp only [applyAlt, List.foldl_cons]
      rw [hstep]
      by_cases hv : v ∈ arr
      · simpa [hv] using ih (arr.erase v) (h.erase v)
      · simpa [hv] using ih arr h

/-- Helper: on a duplicate-free array, the del loop removes every listed
value completely. -/
theorem applyAlt_del_not_mem (vals : List PyVal) (arr : List PyVal)
    (h : arr.Nodup) : ∀ v ∈ vals, v ∉ applyAlt .del arr vals := by
  induction vals generalizing arr with
  | nil => intro v hv; cases hv
  | cons v vs ih =>
      have hstep : applyAlt .del arr (v :: vs)
          = applyAlt .del (if v ∈ arr then arr.erase v else arr) vs := by
        simp only [applyAlt, List.foldl_cons]
      intro w hw
      rw [hstep]
      set arr1 := if v ∈ arr then arr.erase v else arr with harr1
      have hnd1 : arr1.Nodup := by
        by_cases hv : v ∈ arr
        · simpa [harr1, hv] using h.erase v
        · simpa [harr1, hv] using h
      have hvnot : v ∉ arr1 := by
        by_cases hv : v ∈ arr
        · simp only [harr1, hv, if_true]
          intro hmem
          rcases (List.Nodup.mem_erase_iff h).1 hmem with ⟨hne, _⟩
          exact hne rfl
        · rw [harr1, if_neg hv]
          exact hv
      rcases List.mem_cons.1 hw with hw1 | hw2
      · subst hw1
        intro hmem
        exact hvnot (applyAlt_del_subset vs arr1 hmem)
      · exact ih arr1 hnd1 w hw2

end KB

section ClaimTheoremsKB

open KB

/-- C1: the code does NOT store a = ["1", "2"].  Because _update_knowledge_base
rebinds altered_array to a fresh stringified list in the coercion branch, the
append lands on a discarded copy and the stored value of a remains the
original [1].  This holds for every host division function since the program
involves no division. -/
theorem claim_C1_code_behavior (pyDiv : Int → Int → Except Err Int) :
    (KBInterp.start pyDiv ⟨[]⟩ c1Program).1
      = .ok [("kb", [("a", KValue.arr [PyVal.i 1])])]
    ∧ (KValue.arr [PyVal.i 1]) ≠ (KValue.arr [PyVal.s "1", PyVal.s "2"]) := by
  exact ⟨rfl, by decide⟩

/-- C4: the factor rule evaluates (1 - 5) % 3 through the Python eval of
"-4 % 3", whose % is the floor-style modulo (result 2), not the remainder of
truncating division (Int.tmod, result -1) that the specification prescribes.
The divergence is independent of the abstract division parameter. -/
theorem claim_C4_code_behavior (pyDiv : Int → Int → Except Err Int) :
    evalExpr pyDiv []
        (.factor (.term (.number "1") .minus (.number "5")) .mod (.number "3"))
      = .ok (KValue.i 2)
    ∧ Int.tmod (-4) 3 = -1
    ∧ (2 : Int) ≠ -1 := by
  exact ⟨rfl, by decide, by decide⟩

/-- C5 counterexample: with the non-array value V = 5, the sequence
init X = V; alt X add V does not succeed: the alteration raises
InterpretationError since add only supports array objects. -/
theorem claim_C5_counterexample :
    updateKnowledgeBase [("X", KValue.i 5)] "X" (KValue.i 5) (some .add)
      = .error (.interp "adding and removing elements only support array objects") := by
  decide

/-- C5 amended: for every non-empty array value V, init X = V followed by
alt X add V yields the same stored value as init X = V alone, and the
alteration succeeds: re-adding already-present elements is a no-op. -/
theorem claim_C5_amended (v0 : PyVal) (l : List PyVal) :
    updateKnowledgeBase [] "X" (KValue.arr (v0 :: l)) none
      = .ok [("X", KValue.arr (v0 :: l))]
    ∧ updateKnowledgeBase [("X", KValue.arr (v0 :: l))] "X"
        (KValue.arr (v0 :: l)) (some .add)
      = .ok [("X", KValue.arr (v0 :: l))] := by
  constructor
  · rfl
  · have hall : applyAlt .add (v0 :: l) (v0 :: l) = v0 :: l :=
      applyAlt_add_subset (v0 :: l) (v0 :: l) (fun v hv => hv)
    simp [updateKnowledgeBase, dictGet, dictUpdate, hall]

/-- C6 counterexample: deleting value-list [2] from the stored array [2, 2]
leaves [2]: del removes only the first occurrence, so the resulting array
still contains an element of the value-list. -/
theorem claim_C6_counterexample :
    updateKnowledgeBase [("X", KValue.arr [PyVal.i 2, PyVal.i 2])] "X"
        (KValue.i 2) (some .del)
      = .ok [("X", KValue.arr [PyVal.i 2])]
    ∧ PyVal.i 2 ∈ [PyVal.i 2] := by
  exact ⟨by decide, by decide⟩

/-- C6 amended: for a del alteration whose value-list has the same element
kind as the stored array, if the stored array is duplicate-free then the
resulting array contains no occurrence of any element of the value-list. -/
theorem claim_C6_amended (a0 : PyVal) (A : List PyVal) (v0 : PyVal)
    (V : List PyVal) (hnd : (a0 :: A).Nodup) (hkind : v0.isInt = a0.isInt) :
    updateKnowledgeBase [("X", KValue.arr (a0 :: A))] "X"
        (KValue.arr (v0 :: V)) (some .del)
      = .ok [("X", KValue.arr (applyAlt .del (a0 :: A) (v0 :: V)))]
    ∧ ∀ v ∈ (v0 :: V), v ∉ applyAlt .del (a0 :: A) (v0 :: V) := by
  constructor
  · simp [updateKnowledgeBase, dictGet, dictUpdate, hkind]
  · exact applyAlt_del_not_mem (v0 :: V) (a0 :: A) hnd

/-- C6 amended, witness at stored array [1, 2] and value-list [1]. -/
theorem claim_C6_amended_witness :
    updateKnowledgeBase [("X", KValue.arr [PyVal.i 1, PyVal.i 2])] "X"
        (KValue.arr [PyVal.i 1]) (some .del)
      = .ok [("X", KValue.arr (applyAlt .del [PyVal.i 1, PyVal.i 2] [PyVal.i 1]))]
    ∧ ∀ v ∈ [PyVal.i 1], v ∉ applyAlt .del [PyVal.i 1, PyVal.i 2] [PyVal.i 1] :=
  claim_C6_amended (PyVal.i 1) [PyVal.i 2] (PyVal.i 1) [] (by decide) (by decide)

/-- C9: the interpreter state is NOT cleared when interpretation aborts with
an InterpretationError (start only resets on its success path).  After the
failing run of program A, interpreting program B on the same instance
succeeds and even returns the stale knowledge base foo, whereas a fresh
instance raises an InterpretationError on B. -/
theorem claim_C9_code_behavior (pyDiv : Int → Int → Except Err Int) :
    (KBInterp.start pyDiv ⟨[]⟩ c9ProgramA).1
      = .error (.interp "knowledge base is not defined")
    ∧ (KBInterp.start pyDiv (KBInterp.start pyDiv ⟨[]⟩ c9ProgramA).2 c9ProgramB).1
      = .ok [("foo", [("bar", KValue.i 1)]), ("baz", [("b", KValue.i 1)])]
    ∧ (KBInterp.start pyDiv ⟨[]⟩ c9ProgramB).1
      = .error (.interp "knowledge base is not defined")
    ∧ (Except.ok [("foo", [("bar", KValue.i 1)]), ("baz", [("b", KValue.i 1)])]
        : Except Err KBColl)
      ≠ .error (.interp "knowledge base is not defined") := by
  refine ⟨rfl, rfl, rfl, ?_⟩
  intro hc
  cases hc

/-- C10 counterexample: the superscript-two character has the Unicode digit
property but no decimal value, so string2int raises ValueError on the
one-character string made of it, although that string is neither a non-empty
decimal-digit run (under either the ASCII or the Unicode-Nd reading) nor a
0x-prefixed hexadecimal literal nor the exact string 0x; and the
Arabic-Indic digit three is not an ASCII decimal-digit run either, yet
string2int returns 3 on it rather than None.  Both refute the claim that
None is returned on everything outside the two shapes except exactly 0x. -/
theorem claim_C10_counterexample :
    (decimalRun "²" = false ∧ allDecimal "²".data = false
      ∧ hexLiteral "²" = false ∧ "²" ≠ "0x"
      ∧ string2int "²" = .error .valueError)
    ∧ (decimalRun "٣" = false ∧ hexLiteral "٣" = false ∧ "٣" ≠ "0x"
      ∧ string2int "٣" = .ok (some 3)) := by
  decide

/-- C10 (amended): string2int returns None on every string that neither
passes str.isdigit nor is a 0x-prefixed hexadecimal literal, except the
exact string 0x, on which int(val[2:], base=16) raises ValueError; on a
string passing str.isdigit it returns the base-10 value when every
character is a decimal (Nd) digit and raises ValueError when some digit
character has no decimal value (superscripts and the like); consequently a
knowledge-base arithmetic operand equal to the string literal 0x aborts
with an uncaught ValueError, not an InterpretationError. -/
theorem claim_C10_amended :
    (∀ s : String, pyIsDigitChars s.data = false → hexLiteral s = false →
      string2int s = if s = "0x" then .error .valueError else .ok none)
    ∧ (∀ s : String, pyIsDigitChars s.data = true →
      string2int s =
        if allDecimal s.data then .ok (some ((decVal s.data : Nat) : Int))
        else .error .valueError)
    ∧ (∀ pyDiv : Int → Int → Except Err Int,
        evalExpr pyDiv [] (.term (.string "\"0x\"") .plus (.number "1"))
          = .error .valueError) := by
  refine ⟨?_, ?_, ?_⟩
  · intro s h1 h2
    obtain ⟨cs⟩ := s
    have hif : ((⟨cs⟩ : String) = "0x") = (cs = ['0', 'x']) := by
      apply propext
      constructor
      · intro h; exact congrArg String.data h
      · intro h; subst h; rfl
    simp only [hif]
    have h1d : pyIsDigitChars cs = false := h1
    rcases cs with _ | ⟨c0, rest0⟩
    · simp [string2int, pyIsDigitChars]
    · rcases rest0 with _ | ⟨c1, rest⟩
      · have hne : ¬([c0] = ['0', 'x']) := by simp
        rw [if_neg hne]
        simp only [string2int]
        split
        · next heq => exact absurd heq (by rw [h1d]; simp)
        · rfl
      · by_cases h0 : c0 = '0' ∧ c1 = 'x'
        · rcases h0 with ⟨h0a, h0b⟩
          subst h0a; subst h0b
          show (if rest.all isHexChar = true then
              if rest.isEmpty = true then Except.error Err.valueError
              else Except.ok (some ((hexValChars rest : Nat) : Int))
            else if pyIsDigitChars ('0' :: 'x' :: rest) = true then
              if allDecimal ('0' :: 'x' :: rest) = true then
                Except.ok (some ((decVal ('0' :: 'x' :: rest) : Nat) : Int))
              else Except.error Err.valueError
            else Except.ok none)
            = if '0' :: 'x' :: rest = ['0', 'x'] then Except.error Err.valueError
              else Except.ok none
          rcases rest with _ | ⟨r0, rs⟩
          · rfl
          · have hhex : (r0 :: rs).all isHexChar = false := by
              have h2d : (!(r0 :: rs).isEmpty && (r0 :: rs).all isHexChar) = false := h2
              simpa using h2d
            rw [hhex, h1d]
            simp
        · have hne2 : ¬(c0 :: c1 :: rest = ['0', 'x']) := by
            intro hc
            rw [List.cons.injEq, List.cons.injEq] at hc
            exact h0 ⟨hc.1, hc.2.1⟩
          rw [if_neg hne2]
          simp only [string2int]
          split
          · next heq =>
              exfalso
              rw [List.cons.injEq, List.cons.injEq] at heq
              exact h0 ⟨heq.1, heq.2.1⟩
          · rw [h1d]
            rfl
  · intro s h1
    obtain ⟨cs⟩ := s
    have h1d : pyIsDigitChars cs = true := h1
    rcases cs with _ | ⟨c0, rest0⟩
    · exact absurd h1d (by decide)
    · rcases rest0 with _ | ⟨c1, rest⟩
      · simp only [string2int]
        split
        · rfl
        · next heq => exact absurd h1d heq
      · by_cases h0 : c0 = '0' ∧ c1 = 'x'
        · rcases h0 with ⟨h0a, h0b⟩
          subst h0a; subst h0b
          exfalso
          have hx : pyIsDigitChar 'x' = true := by
            simp only [pyIsDigitChars, List.all_cons, Bool.and_eq_true] at h1d
            exact h1d.2.2.1
          exact absurd hx (by decide)
        · simp only [string2int]
          split
          · next heq =>
              exfalso
              rw [List.cons.injEq, List.cons.injEq] at heq
              exact h0 ⟨heq.1, heq.2.1⟩
          · rw [h1d]
            rfl
  · intro pyDiv
    rfl

/-- C10 witness: evaluation of the amended universal parts at the concrete
inputs abc (neither shape, returns None), 0x (the hex prefix with no digits,
raises ValueError), and the Arabic-Indic digit three (a digit run of decimal
characters, parsed to 3). -/
theorem claim_C10_amended_witness :
    (pyIsDigitChars "abc".data = false ∧ hexLiteral "abc" = false
      ∧ string2int "abc" = .ok none)
    ∧ (pyIsDigitChars "0x".data = false ∧ hexLiteral "0x" = false
      ∧ string2int "0x" = .error .valueError)
    ∧ (pyIsDigitChars "٣".data = true ∧ string2int "٣" = .ok (some 3)) := by
  refine ⟨⟨by decide, by decide, ?_⟩, ⟨by decide, by decide, ?_⟩, ⟨by decide, ?_⟩⟩
  · have h := claim_C10_amended.1 "abc" (by decide) (by decide)
    simpa using h
  · have h := claim_C10_amended.1 "0x" (by decide) (by decide)
    simpa using h
  · have h := claim_C10_amended.2.1 "٣" (by decide)
    rw [h]
    decide

end ClaimTheoremsKB

namespace RuleTranslator

/-- Helper: the chain built by rule_block has as many nested conditionals as
there are checks, provided no check contains a conditional_expr itself (the
rule transformer never produces one inside a condition). -/
theorem getNestedLevel_mkChain (cs : List MTree)
    (h : ∀ c ∈ cs, getNestedLevel c "conditional_expr" = 0) :
    getNestedLevel (mkChain cs outputValue) "conditional_expr" = cs.length := by
  induction cs with
  | nil => decide
  | cons c cs ih =>
      have hc : getNestedLevel c "conditional_expr" = 0 :=
        h c (List.mem_cons_self c cs)
      have hrest : getNestedLevel (mkChain cs outputValue) "conditional_expr" = cs.length :=
        ih (fun x hx => h x (List.mem_cons_of_mem c hx))
      have hph : getNestedLevel placeholderCode "conditional_expr" = 0 := by decide
      have hstep : getNestedLevel
          (.node "conditional_expr" [c, placeholderCode, mkChain cs outputValue])
          "conditional_expr"
          = 1 + max (getNestedLevel c "conditional_expr")
              (max (getNestedLevel placeholderCode "conditional_expr")
                (max (getNestedLevel (mkChain cs outputValue) "conditional_expr") 0)) := rfl
      show getNestedLevel
          (.node "conditional_expr" [c, placeholderCode, mkChain cs outputValue])
          "conditional_expr" = cs.length + 1
      rw [hstep, hc, hph, hrest]
      omega

/-- Helper: substituting codes along the chain built by rule_block succeeds
and hands out the consecutive codes next, next+1, ... along the spine. -/
theorem assignCodes_mkChain (cs : List MTree) (n : Nat) :
    ∃ r, assignCodes (mkChain cs outputValue) n = some r
      ∧ spineCodes r = (List.range' n cs.length).map (fun k => toString k) := by
  induction cs generalizing n with
  | nil => exact ⟨outputValue, rfl, rfl⟩
  | cons c cs ih =>
      obtain ⟨e2, he2, hs2⟩ := ih (n + 1)
      refine ⟨.node "conditional_expr"
        [c, .node "number" [.tok "NUMBER" (toString n)], e2], ?_, ?_⟩
      · show assignCodes
            (.node "conditional_expr"
              [c, .node "number" [.tok "NUMBER" "1"], mkChain cs outputValue]) n = _
        rw [assignCodes, he2]
      · show toString n :: spineCodes e2
            = (List.range' n (cs.length + 1)).map (fun k => toString k)
        rw [List.range'_succ, List.map_cons, hs2]

/-- Helper: processing one non-empty rule block anchored at base b succeeds,
advances the base by ERROR_CODE_STEP, and yields codes b+1 ... b+N in source
order. -/
theorem processRule_rule_block (b : Nat) (g : MTree) (cs : List MTree)
    (hne : cs ≠ []) (h0 : ∀ c ∈ cs, getNestedLevel c "conditional_expr" = 0)
    (hlen : cs.length < 1000) :
    ∃ r, processRule b (rule_block g cs) = .ok (r, b + ERROR_CODE_STEP)
      ∧ ruleCodes r = (List.range' (b + 1) cs.length).map (fun k => toString k) := by
  obtain ⟨c, cs2, rfl⟩ := List.exists_cons_of_ne_nil hne
  obtain ⟨r2, h2a, h2b⟩ := assignCodes_mkChain (c :: cs2) (b + 1)
  have hlevel := getNestedLevel_mkChain (c :: cs2) h0
  refine ⟨.node "assign_stmt"
    [outputValue, .tok "EQUAL" "=",
     .node "conditional_expr" [g, r2, outputValue]], ?_, ?_⟩
  · show processRule b (.node "assign_stmt"
        [outputValue, .tok "EQUAL" "=",
         .node "conditional_expr" [g, mkChain (c :: cs2) outputValue, outputValue]]) = _
    rw [processRule]
    rw [hlevel]
    rw [if_neg (by simp only [ERROR_CODE_STEP]; omega)]
    rw [h2a]
  · show spineCodes r2 = _
    exact h2b

/-- Helper: one unfolding step of the renumbering fold. -/
theorem startGo_cons (p : Nat) (r : MTree) (rs : List MTree) (r2 : MTree)
    (p2 : Nat) (h : processRule p r = .ok (r2, p2)) (rs2 : List MTree)
    (h2 : startGo p2 rs = .ok rs2) :
    startGo p (r :: rs) = .ok (r2 :: rs2) := by
  rw [startGo, h]
  show Except.bind (startGo p2 rs) (fun rs3 => Except.ok (r2 :: rs3)) = _
  rw [h2]
  rfl

/-- Helper: a lowered rule block always passes the statement filter of
start. -/
theorem isRuleStmt_rule_block (g : MTree) (cs : List MTree) :
    isRuleStmt (rule_block g cs) = true := by
  cases cs with
  | nil => rfl
  | cons c cs => rfl

/-- Helper: consecutive integers are strictly increasing. -/
theorem chain'_lt_range' (s n : Nat) :
    List.Chain' (fun a b => a < b) (List.range' s n) := by
  induction n generalizing s with
  | zero => exact List.chain'_nil
  | succ k ih =>
      rw [List.range'_succ]
      cases k with
      | zero => simp
      | succ m =>
          rw [List.range'_succ]
          exact List.Chain'.cons (by omega) (by rw [← List.range'_succ]; exact ih (s + 1))

end RuleTranslator

section ClaimTheoremsRule

open RuleTranslator

/-- C2 counterexample: a program whose first rule block is empty and whose
second has one check.  The empty block emits a skip statement and does NOT
advance the error-code prefix (the loop continues before stepping), so the
first check of the second rule block receives 1001, not 2001. -/
theorem claim_C2_counterexample :
    (RuleTranslator.start [rule_block cGuard [], rule_block cGuard [cCheckX]]).map
        bodyRuleCodes = .ok [[], ["1001"]]
    ∧ ("1001" : String) ≠ "2001" := by
  exact ⟨by decide, by decide⟩

/-- C2 amended: rule blocks are numbered from base 1000 stepped by 1000 per
NON-EMPTY rule block in source order; empty rule blocks emit a skip
statement and do not advance the numbering.  In particular, when the first
rule block is non-empty, the first check of the second rule block receives
error code 2001. -/
theorem claim_C2_amended (g1 g2 : MTree) (cs1 cs2 : List MTree)
    (hne1 : cs1 ≠ []) (hne2 : cs2 ≠ [])
    (h01 : ∀ c ∈ cs1, getNestedLevel c "conditional_expr" = 0)
    (h02 : ∀ c ∈ cs2, getNestedLevel c "conditional_expr" = 0)
    (hl1 : cs1.length < 1000) (hl2 : cs2.length < 1000) :
    ∃ body, RuleTranslator.start [rule_block g1 cs1, rule_block g2 cs2] = .ok body
      ∧ bodyRuleCodes body
        = [(List.range' 1001 cs1.length).map (fun k => toString k),
           (List.range' 2001 cs2.length).map (fun k => toString k)] := by
  obtain ⟨r1, h1a, h1b⟩ := processRule_rule_block 1000 g1 cs1 hne1 h01 hl1
  obtain ⟨r2, h2a, h2b⟩ := processRule_rule_block 2000 g2 cs2 hne2 h02 hl2
  have hnil : startGo (2000 + ERROR_CODE_STEP) ([] : List MTree) = .ok [] := rfl
  have hgo2 : startGo (1000 + ERROR_CODE_STEP) [rule_block g2 cs2] = .ok [r2] :=
    startGo_cons (1000 + ERROR_CODE_STEP) (rule_block g2 cs2) [] r2
      (2000 + ERROR_CODE_STEP) h2a [] hnil
  have hgo1 : startGo 1000 [rule_block g1 cs1, rule_block g2 cs2] = .ok [r1, r2] :=
    startGo_cons 1000 (rule_block g1 cs1) [rule_block g2 cs2] r1
      (1000 + ERROR_CODE_STEP) h1a [r2] hgo2
  refine ⟨.node "transition_body" [r1, r2], ?_, ?_⟩
  · have hfilter : [rule_block g1 cs1, rule_block g2 cs2].filter isRuleStmt
        = [rule_block g1 cs1, rule_block g2 cs2] := by
      rw [List.filter_cons_of_pos (isRuleStmt_rule_block g1 cs1),
          List.filter_cons_of_pos (isRuleStmt_rule_block g2 cs2),
          List.filter_nil]
    show Except.bind
        (startGo ERROR_CODE_BASE
          ([rule_block g1 cs1, rule_block g2 cs2].filter isRuleStmt))
        (fun rules2 => Except.ok (MTree.node "transition_body" rules2)) = _
    rw [hfilter]
    have hbase : ERROR_CODE_BASE = 1000 := rfl
    rw [hbase, hgo1]
    rfl
  · show [ruleCodes r1, ruleCodes r2] = _
    rw [h1b, h2b]

/-- C2 amended, witness with two one-check rule blocks: codes 1001 and
2001. -/
theorem claim_C2_amended_witness :
    ∃ body, RuleTranslator.start
        [rule_block cGuard [cCheckX], rule_block cGuard [cCheckY]] = .ok body
      ∧ bodyRuleCodes body
        = [(List.range' 1001 [cCheckX].length).map (fun k => toString k),
           (List.range' 2001 [cCheckY].length).map (fun k => toString k)] :=
  claim_C2_amended cGuard cGuard [cCheckX] [cCheckY]
    (by decide) (by decide) (by decide) (by decide) (by decide) (by decide)

/-- C3: within one non-empty rule block anchored at base b with N checks,
processing replaces the placeholder codes with b+1, ..., b+N in source
order (the outermost check receives the smallest code), and these codes are
strictly increasing. -/
theorem claim_C3_error_codes (b : Nat) (g : MTree) (cs : List MTree)
    (hne : cs ≠ []) (h0 : ∀ c ∈ cs, getNestedLevel c "conditional_expr" = 0)
    (hlen : cs.length < 1000) :
    ∃ r, processRule b (rule_block g cs) = .ok (r, b + ERROR_CODE_STEP)
      ∧ ruleCodes r = (List.range' (b + 1) cs.length).map (fun k => toString k)
      ∧ List.Chain' (fun x y => x < y) (List.range' (b + 1) cs.length) := by
  obtain ⟨r, ha, hb⟩ := processRule_rule_block b g cs hne h0 hlen
  exact ⟨r, ha, hb, chain'_lt_range' (b + 1) cs.length⟩

/-- C3 witness: a two-check rule anchored at base 1000 receives codes 1001,
1002. -/
theorem claim_C3_error_codes_witness :
    ∃ r, processRule 1000 (rule_block cGuard [cCheckX, cCheckY])
        = .ok (r, 1000 + ERROR_CODE_STEP)
      ∧ ruleCodes r = (List.range' 1001 [cCheckX, cCheckY].length).map (fun k => toString k)
      ∧ List.Chain' (fun x y => x < y) (List.range' 1001 [cCheckX, cCheckY].length) :=
  claim_C3_error_codes 1000 cGuard [cCheckX, cCheckY] (by decide) (by decide) (by decide)

end ClaimTheoremsRule

section ClaimTheoremsTypeInference

open TypeInference

/-- C7 counterexample: on an equality whose left operand is a string
literal and whose right operand is a number, the pass types BOTH operands
int (the int branch is tested first), not string as the claim states for a
string left operand. -/
theorem claim_C7_counterexample :
    inferVisit 10 [] [] c7EqTree
      = some ("bool", [(c7Left, "int"), (c7Right, "int")])
    ∧ getT [(c7Left, "int"), (c7Right, "int")] c7Left = some "int"
    ∧ (some "int" : Option String) ≠ some "string" := by
  exact ⟨by decide, by decide, by decide⟩

/-- C7 amended: equality_expr produces bool and unifies both operand types
with int priority: both become int when either inferred type is int,
otherwise both become string when either is string, otherwise both
unknowns default to int (in particular, left string with right int unifies
to int, not to the leftmost type). -/
theorem claim_C7_amended (fuel : Nat) (kt : KTypes) (m m1 m2 : TypeMap)
    (l op r : MTree) (tl tr : String)
    (hl : inferVisit fuel kt m l = some (tl, m1))
    (hr : inferVisit fuel kt m1 r = some (tr, m2))
    (htl : tl = "int" ∨ tl = "string" ∨ tl = "unknown")
    (htr : tr = "int" ∨ tr = "string" ∨ tr = "unknown") :
    inferVisit (fuel + 1) kt m (.node "equality_expr" [l, op, r])
      = some ("bool", setT (setT m2 l (unifiedType tl tr)) r (unifiedType tl tr)) := by
  have hred : inferVisit (fuel + 1) kt m (.node "equality_expr" [l, op, r])
      = match inferVisit fuel kt m l with
        | none => none
        | some (tl2, m12) =>
            match inferVisit fuel kt m12 r with
            | none => none
            | some (tr2, m22) =>
                if tl2 = "int" ∨ tr2 = "int" then
                  some ("bool", setT (setT m22 l "int") r "int")
                else if tl2 = "string" ∨ tr2 = "string" then
                  some ("bool", setT (setT m22 l "string") r "string")
                else if tl2 = "unknown" ∧ tr2 = "unknown" then
                  some ("bool", setT (setT m22 l "int") r "int")
                else none := rfl
  rw [hred]
  simp only [hl, hr]
  rw [unifiedType]
  by_cases h1 : tl = "int" ∨ tr = "int"
  · rw [if_pos h1, if_pos h1]
  · rw [if_neg h1, if_neg h1]
    by_cases h2 : tl = "string" ∨ tr = "string"
    · rw [if_pos h2, if_pos h2]
    · rw [if_neg h2, if_neg h2]
      have hu : tl = "unknown" ∧ tr = "unknown" := by
        constructor
        · rcases htl with h | h | h
          · exact absurd (Or.inl h) h1
          · exact absurd (Or.inl h) h2
          · exact h
        · rcases htr with h | h | h
          · exact absurd (Or.inr h) h1
          · exact absurd (Or.inr h) h2
          · exact h
      rw [if_pos hu]

/-- C7 amended, witness at the string-left / int-right instance: the
unified type is int. -/
theorem claim_C7_amended_witness :
    inferVisit 10 [] [] (.node "equality_expr" [c7Left, .tok "EQ" "==", c7Right])
      = some ("bool", setT (setT [] c7Left (unifiedType "string" "int"))
          c7Right (unifiedType "string" "int")) :=
  claim_C7_amended 9 [] [] [] [] c7Left (.tok "EQ" "==") c7Right "string" "int"
    (by decide) (by decide) (by decide) (by decide)

end ClaimTheoremsTypeInference

namespace Se

/-- Helper: walking the compiled chain collects exactly the checks in
source order and ends at output.value. -/
theorem collectConds_seChain (ccs : List (MTree × MTree)) :
    TypeInference.collectConds (seChain ccs)
      = some (ccs.map Prod.fst, RuleTranslator.outputValue) := by
  induction ccs with
  | nil => rfl
  | cons cc rest ih =>
      show TypeInference.collectConds
          (.node "conditional_expr" [cc.1, cc.2, seChain rest]) = _
      rw [TypeInference.collectConds, ih]
      rfl

/-- Helper: a token never lowers to a term. -/
theorem seVisit_tok (sfuel fuel : Nat) (kc : List (String × KB.KValue))
    (T : TypeInference.TypeMap) (s : SeState) (ty v : String) :
    seVisit sfuel fuel kc T s (.tok ty v) = none := by
  cases fuel <;> rfl

/-- Helper: the term the checker visits for the negation of a check is
pointwise the Boolean negation of the lowered original check predicate
(double negation cancels for require-lowered checks). -/
theorem origTerm_relation (sfuel fuel : Nat) (kc : List (String × KB.KValue))
    (T : TypeInference.TypeMap) (s : SeState) (c nc : MTree) (t : CTerm)
    (s1 : SeState) (hnc : negatedExpr c = some nc)
    (hv : seVisit sfuel fuel kc T s nc = some (t, s1)) :
    ∃ ct, origTerm c t = some ct ∧ ∀ v, evalB v t = !evalB v ct := by
  cases c with
  | tok ty v =>
      exfalso
      have hnc2 : nc = .node "not_expr" [.tok ty v] := by
        have : negatedExpr (.tok ty v) = some (.node "not_expr" [.tok ty v]) := rfl
        rw [this] at hnc
        exact (Option.some.injEq _ _ ▸ hnc).symm
      subst hnc2
      cases fuel with
      | zero => exact Option.noConfusion hv
      | succ f =>
          rw [show seVisit sfuel (f + 1) kc T s (.node "not_expr" [.tok ty v])
              = (match seVisit sfuel f kc T s (.tok ty v) with
                 | none => none
                 | some (t2, s2) =>
                     if t2.sort = some CSort.bool then some (.app .not [t2], s2)
                     else none) from rfl] at hv
          rw [seVisit_tok] at hv
          exact Option.noConfusion hv
  | node d cs =>
      by_cases hd : d = "not_expr"
      · subst hd
        refine ⟨.app .not [t], rfl, ?_⟩
        intro v
        show evalB v t = !evalB v (.app .not [t])
        rw [show evalB v (.app .not [t]) = !evalB v t from rfl]
        rw [Bool.not_not]
      · have hnc2 : nc = .node "not_expr" [.node d cs] := by
          unfold negatedExpr at hnc
          split at hnc
          · next heq => exact absurd (by injection heq) hd
          · next heq => exact absurd (by injection heq) hd
          · exact (Option.some.injEq _ _ ▸ hnc).symm
        subst hnc2
        cases fuel with
        | zero => exact Option.noConfusion hv
        | succ f =>
            rw [show seVisit sfuel (f + 1) kc T s (.node "not_expr" [.node d cs])
                = (match seVisit sfuel f kc T s (.node d cs) with
                   | none => none
                   | some (t2, s2) =>
                       if t2.sort = some CSort.bool then some (.app .not [t2], s2)
                       else none) from rfl] at hv
            rcases hinner : seVisit sfuel f kc T s (.node d cs) with _ | ⟨tc, s2⟩
            · simp only [hinner] at hv
              exact Option.noConfusion hv
            · simp only [hinner] at hv
              by_cases hsort : tc.sort = some CSort.bool
              · rw [if_pos hsort] at hv
                have ht : t = CTerm.app .not [tc] ∧ s1 = s2 := by
                  have hp := Option.some.injEq _ _ ▸ hv
                  exact ⟨congrArg Prod.fst hp.symm, congrArg Prod.snd hp.symm⟩
                obtain ⟨ht1, _⟩ := ht
                subst ht1
                refine ⟨tc, ?_, ?_⟩
                · unfold origTerm
                  split
                  · next heq => exact absurd (by injection heq) hd
                  · rfl
                · intro v
                  rfl
              · rw [if_neg hsort] at hv
                exact Option.noConfusion hv


/-- Helper: the visited negated-check terms of one rule are pointwise the
negations of the lowered original check predicates. -/
theorem visitNegChecks_orig (sfuel fuel : Nat) (kc : List (String × KB.KValue))
    (T : TypeInference.TypeMap) :
    ∀ (conds : List MTree) (s : SeState) (ts : List CTerm) (s2 : SeState),
      visitNegChecks sfuel fuel kc T s conds = some (ts, s2) →
      ∃ cts, origCheckTerms conds ts = some cts
        ∧ ∀ v, evalBAll v ts = cts.all (fun ct => !evalB v ct) := by
  intro conds
  induction conds with
  | nil =>
      intro s ts s2 h
      have hts : ts = [] := by
        have := Option.some.injEq _ _ ▸ h
        exact congrArg Prod.fst this.symm
      subst hts
      exact ⟨[], rfl, fun v => rfl⟩
  | cons c rest ih =>
      intro s ts s2 h
      rw [visitNegChecks] at h
      rcases hnc : negatedExpr c with _ | nc
      · simp only [hnc] at h
        exact Option.noConfusion h
      · simp only [hnc] at h
        rcases hv : seVisit sfuel fuel kc T s nc with _ | ⟨t, s1⟩
        · simp only [hv] at h
          exact Option.noConfusion h
        · simp only [hv] at h
          rcases hrest : visitNegChecks sfuel fuel kc T s1 rest with _ | ⟨ts1, s3⟩
          · simp only [hrest] at h
            exact Option.noConfusion h
          · simp only [hrest] at h
            have hts : ts = t :: ts1 ∧ s2 = s3 := by
              have hp := Option.some.injEq _ _ ▸ h
              exact ⟨congrArg Prod.fst hp.symm, congrArg Prod.snd hp.symm⟩
            obtain ⟨hts1, _⟩ := hts
            subst hts1
            obtain ⟨ct, hct, hrel⟩ :=
              origTerm_relation sfuel fuel kc T s c nc t s1 hnc hv
            obtain ⟨cts, hcts, hall⟩ := ih s1 ts1 s3 hrest
            refine ⟨ct :: cts, ?_, ?_⟩
            · rw [origCheckTerms, hct, hcts]
            · intro v
              show (evalB v t && evalBAll v ts1)
                  = ((ct :: cts).all fun x => !evalB v x)
              rw [hrel v, hall v, List.all_cons]

/-- Helper: a rule statement contributes a formula exactly when it is an
assign_stmt. -/
theorem seProcessRule_isSome (sfuel fuel : Nat) (kc : List (String × KB.KValue))
    (T : TypeInference.TypeMap) (s : SeState) (stmt : MTree)
    (f? : Option CTerm) (s1 : SeState)
    (h : seProcessRule sfuel fuel kc T s stmt = some (f?, s1)) :
    f?.isSome = isAssignNode stmt := by
  unfold seProcessRule at h
  repeat' split at h
  all_goals simp_all [isAssignNode]
  all_goals rw [← h.1]
  all_goals rfl

/-- Helper: the fold collects one formula per assign statement. -/
theorem seRules_count (sfuel fuel : Nat) (kc : List (String × KB.KValue))
    (T : TypeInference.TypeMap) :
    ∀ (stmts : List MTree) (s : SeState) (fs : List CTerm) (s2 : SeState),
      seRules sfuel fuel kc T s stmts = some (fs, s2) →
      fs.length = stmts.countP isAssignNode := by
  intro stmts
  induction stmts with
  | nil =>
      intro s fs s2 h
      have hfs : fs = [] := by
        have hp := Option.some.injEq _ _ ▸ h
        exact congrArg Prod.fst hp.symm
      subst hfs
      rfl
  | cons stmt rest ih =>
      intro s fs s2 h
      rw [seRules] at h
      rcases hp1 : seProcessRule sfuel fuel kc T s stmt with _ | ⟨f?, s1⟩
      · simp only [hp1] at h
        exact Option.noConfusion h
      · rcases hp2 : seRules sfuel fuel kc T s1 rest with _ | ⟨fs1, s3⟩
        · simp only [hp1, hp2] at h
          exact Option.noConfusion h
        · have hsome := seProcessRule_isSome sfuel fuel kc T s stmt f? s1 hp1
          have hcnt := ih s1 fs1 s3 hp2
          cases f? with
          | none =>
              simp only [hp1, hp2, Option.some.injEq, Prod.mk.injEq] at h
              rw [List.countP_cons, ← hsome, ← h.1]
              simpa using hcnt
          | some f =>
              simp only [hp1, hp2, Option.some.injEq, Prod.mk.injEq] at h
              rw [List.countP_cons, ← hsome, ← h.1]
              simp [hcnt]

end Se

section ClaimTheoremsSe

open Se TypeInference

/-- C8: the satisfiability checker asserts exactly one formula per
non-empty rule and issues a single checkSat call over all rules; the
formula asserted for a rule with guard g and checks c1..cN is the
conjunction of the lowered guard with the conjunction of the negated
lowered checks, and it is propositionally equal to
g AND (NOT c1) AND ... AND (NOT cN) over the lowered check predicates
(require-lowered checks cancel their double negation). -/
theorem claim_C8_sat_lowering :
    (∀ (sfuel fuel : Nat) (kc : List (String × KB.KValue))
        (kt : KTypes) (stmts : List MTree) (trace : SolverTrace),
      seTransitionBody sfuel fuel kc kt stmts = some trace →
      trace.checkSatCalls = 1
        ∧ trace.asserted.length = stmts.countP isAssignNode)
    ∧ (∀ (sfuel fuel : Nat) (kc : List (String × KB.KValue)) (kt : KTypes)
        (g : MTree) (ccs : List (MTree × MTree)) (tystr : String)
        (T : TypeMap) (p : CTerm) (s1 : SeState) (t0 : CTerm)
        (ts : List CTerm) (s2 : SeState),
      inferVisit fuel kt [] (.node "transition_body" [seRule g ccs])
          = some (tystr, T) →
      seVisit sfuel fuel kc T [] g = some (p, s1) →
      visitNegChecks sfuel fuel kc T s1 (ccs.map Prod.fst)
          = some (t0 :: ts, s2) →
      ∃ conj cts,
        seTransitionBody sfuel fuel kc kt [seRule g ccs]
            = some ⟨[.app .and [p, conj]], 1⟩
        ∧ origCheckTerms (ccs.map Prod.fst) (t0 :: ts) = some cts
        ∧ ∀ v, evalB v (.app .and [p, conj])
            = (evalB v p && cts.all (fun ct => !evalB v ct))) := by
  constructor
  · intro sfuel fuel kc kt stmts trace h
    unfold seTransitionBody at h
    split at h
    · rcases hT : inferVisit fuel kt [] (.node "transition_body" stmts)
          with _ | ⟨tystr, T⟩
      · simp only [hT] at h
        exact Option.noConfusion h
      · simp only [hT] at h
        replace h : (match seRules sfuel fuel kc T [] stmts with
            | none => none
            | some (formulas, _) => some (⟨formulas, 1⟩ : SolverTrace))
            = some trace := h
        rcases hR : seRules sfuel fuel kc T [] stmts with _ | ⟨formulas, send⟩
        · rw [hR] at h
          exact Option.noConfusion h
        · rw [hR] at h
          replace h : some (⟨formulas, 1⟩ : SolverTrace) = some trace := h
          have htr : trace = ⟨formulas, 1⟩ := (Option.some.injEq _ _ ▸ h).symm
          subst htr
          exact ⟨rfl, seRules_count sfuel fuel kc T stmts [] formulas send hR⟩
    · exact Option.noConfusion h

  · intro sfuel fuel kc kt g ccs tystr T p s1 t0 ts s2 hT hp hts
    obtain ⟨cts, hcts, hall⟩ :=
      visitNegChecks_orig sfuel fuel kc T (ccs.map Prod.fst) s1 (t0 :: ts) s2 hts
    have hproc : seProcessRule sfuel fuel kc T [] (seRule g ccs)
        = some (some (.app .and [p, conj_of (t0 :: ts)]), s2) := by
      show seProcessRule sfuel fuel kc T []
          (.node "assign_stmt" [RuleTranslator.outputValue, .tok "EQUAL" "=",
            .node "conditional_expr" [g, seChain ccs, RuleTranslator.outputValue]]) = _
      unfold seProcessRule
      simp only [collectConds_seChain, RuleTranslator.outputValue]
      simp only [hp, hts]
      cases ts with
      | nil => rfl
      | cons t1 ts1 => rfl
    refine ⟨conj_of (t0 :: ts), cts, ?_, hcts, ?_⟩
    · unfold seTransitionBody
      rw [if_pos (by rfl)]
      simp only [hT]
      show (match seRules sfuel fuel kc T [] [seRule g ccs] with
        | none => none
        | some (formulas, _) => some (SolverTrace.mk formulas 1))
          = some (SolverTrace.mk [.app .and [p, conj_of (t0 :: ts)]] 1)
      rw [seRules]
      simp only [hproc]
      rfl
    · intro v
      have hconj : evalB v (conj_of (t0 :: ts)) = evalBAll v (t0 :: ts) := by
        cases ts with
        | nil =>
            show evalB v t0 = (evalB v t0 && true)
            rw [Bool.and_true]
        | cons t1 ts1 => rfl
      show (evalB v p && (evalB v (conj_of (t0 :: ts)) && true))
          = (evalB v p && cts.all fun ct => !evalB v ct)
      rw [Bool.and_true, hconj, hall v]

/-- C8 witness: a single rule with guard true and one prohibit-style check
false yields one asserted formula AND(true, NOT(false)), one checkSat call,
and the propositional equality against the lowered original check. -/
theorem claim_C8_sat_lowering_witness :
    ((SolverTrace.mk [CTerm.app .and [.boolLit true, .app .not [.boolLit false]]] 1).checkSatCalls
        = 1
      ∧ (SolverTrace.mk [CTerm.app .and [.boolLit true, .app .not [.boolLit false]]] 1).asserted.length
        = ([seRule c8Guard c8Ccs].countP Se.isAssignNode))
    ∧ (∃ conj cts,
        seTransitionBody 10 10 [] [] [seRule c8Guard c8Ccs]
            = some ⟨[.app .and [.boolLit true, conj]], 1⟩
        ∧ origCheckTerms (c8Ccs.map Prod.fst) ((.app .not [.boolLit false]) :: [])
            = some cts
        ∧ ∀ v, evalB v (.app .and [.boolLit true, conj])
            = (evalB v (.boolLit true) && cts.all (fun ct => !evalB v ct))) :=
  ⟨claim_C8_sat_lowering.1 10 10 [] [] [seRule c8Guard c8Ccs]
      (SolverTrace.mk [CTerm.app .and [.boolLit true, .app .not [.boolLit false]]] 1)
      (by rfl),
   claim_C8_sat_lowering.2 10 10 [] [] c8Guard c8Ccs "__types__" c8Types
      (.boolLit true) [] (.app .not [.boolLit false]) [] []
      (by rfl) (by rfl) (by rfl)⟩

end ClaimTheoremsSe

end Reglang2Msl
